import Mathlib

/-
  Verification of the shared-memory coordination engine
  (src/memory-store.ts, src/config.ts, src/types.ts).

  The TypeScript engine is shallowly embedded: the mutable
  `SharedMemoryStore` object becomes an explicit `Store` state threaded
  through every operation, `Date.now()` becomes an explicit `now : Nat`
  argument, and the id generator (timestamp + random suffix in the
  source) is modelled by a deterministic fresh counter `nextId` — the
  only property the engine relies on is freshness.  JavaScript `Map`s
  become association lists (`findKey` / `setKey` / `delKey`), JS `Set`s
  become duplicate-free lists built by add-if-absent.  Opaque `any`
  payloads are modelled by `Dat`, which distinguishes `null` (the one
  value the engine inspects) from everything else.

  Promise resolution in `publishOutput` is modelled by returning the
  list of (resolver id, delivered data) events next to the new state;
  `setTimeout` handles are fresh numeric ids recorded in `activeTimers`
  and removed by `clearTimeout`.
-/

/-- Opaque JS payload (`any`).  The engine only ever tests `=== null`,
so a payload is either `null` or some opaque value. -/
inductive Dat
  | null
  | val (s : String)
deriving DecidableEq, Repr

/-! ## Association-list model of JS `Map` (string keys) -/

abbrev Assoc (α : Type) := List (String × α)

/-- `Map.get` -/
def findKey {α : Type} : Assoc α → String → Option α
  | [], _ => none
  | (k', v) :: rest, k => if k' = k then some v else findKey rest k

/-- `Map.set`: update in place when the key is present, append otherwise. -/
def setKey {α : Type} : Assoc α → String → α → Assoc α
  | [], k, v => [(k, v)]
  | (k', v') :: rest, k, v =>
      if k' = k then (k, v) :: rest else (k', v') :: setKey rest k v

/-- `Map.delete` -/
def delKey {α : Type} (m : Assoc α) (k : String) : Assoc α :=
  m.filter (fun p => p.1 ≠ k)

/-- JS `Set.add`: add-if-absent keeps the list duplicate free. -/
def addElem (l : List String) (x : String) : List String :=
  if x ∈ l then l else l ++ [x]

/-! ## Data model (src/types.ts) -/

inductive SessionStatus
  | planning | executing | consolidating | complete
deriving DecidableEq, Repr

inductive WUStatus
  | available | claimed | in_progress | completed | blocked
deriving DecidableEq, Repr

inductive WUPriority
  | low | medium | high
deriving DecidableEq, Repr

structure ContextRef where
  ref_id : String
  summary : String
  full_context_key : String
  version : Nat
  token_count : Nat
  created_at : Nat
deriving DecidableEq, Repr

structure WorkUnit where
  unit_id : String
  type : String
  description : String
  status : WUStatus
  claimed_by : Option String
  estimated_duration : Option Nat
  actual_duration : Option Nat
  dependencies : List String
  priority : WUPriority
  result : Option Dat
  created_at : Nat
  updated_at : Nat
deriving DecidableEq, Repr

inductive DiscoveryType
  | function_found | dependency_identified | error_pattern
  | optimization_opportunity | requirement_clarification
deriving DecidableEq, Repr

structure Discovery where
  discovery_id : String
  session_id : String
  worker_id : String
  type : DiscoveryType
  data : Dat
  affects_workers : Option (List String)
  timestamp : Nat
  version : Nat
deriving DecidableEq, Repr

structure FileContext where
  file_path : String
  content_summary : String
  key_functions : List String
  dependencies : List String
  last_modified : Nat
deriving DecidableEq, Repr

inductive ReqPriority
  | must_have | should_have | could_have
deriving DecidableEq, Repr

inductive ReqStatus
  | pending | in_progress | completed
deriving DecidableEq, Repr

structure Requirement where
  requirement_id : String
  description : String
  priority : ReqPriority
  status : ReqStatus
  assigned_to : Option (List String)
deriving DecidableEq, Repr

inductive KnowledgeType
  | architecture_pattern | coding_standard | business_rule | technical_constraint
deriving DecidableEq, Repr

structure SharedKnowledge where
  knowledge_id : String
  type : KnowledgeType
  content : String
  relevance_score : Nat
deriving DecidableEq, Repr

structure FullContext where
  task_description : String
  codebase_files : List FileContext
  requirements : List Requirement
  constraints : List String
  shared_knowledge : List SharedKnowledge
  metadata : Assoc Dat
deriving DecidableEq, Repr

structure Session where
  session_id : String
  coordinator_id : String
  worker_ids : List String
  shared_context : ContextRef
  work_units : List WorkUnit
  discoveries : List Discovery
  outputs : Assoc Dat
  status : SessionStatus
  created_at : Nat
  updated_at : Nat
  ttl : Nat
deriving DecidableEq, Repr

structure OutputPublication where
  session_id : String
  output_key : String
  data : Dat
  producer_worker : String
  timestamp : Nat
  version : Nat
deriving DecidableEq, Repr

structure DependencyWaitRequest where
  session_id : String
  dependency_key : String
  requesting_worker : String
  timeout_ms : Nat
  created_at : Nat
deriving DecidableEq, Repr

/-- A registered `await_dependency` continuation: the identity of the
promise resolver together with the id of its pending timeout timer
(the source stashes the timer on the resolver as `__timeoutId`). -/
structure Waiter where
  rid : Nat
  timeoutId : Nat
deriving DecidableEq, Repr

/-! ## Configuration (src/config.ts) -/

structure SharedMemoryConfig where
  defaultTTL : Nat
  maxSummaryTokens : Nat
  maxTaskDescriptionLength : Nat
  cleanupIntervalMs : Nat
  dependencyCheckIntervalMs : Nat
  maxWorkersPerSession : Nat
  maxWorkUnitsPerSession : Nat
  maxDiscoveriesPerSession : Nat
deriving DecidableEq, Repr

def defaultConfig : SharedMemoryConfig :=
  { defaultTTL := 24 * 60 * 60 * 1000
    maxSummaryTokens := 100
    maxTaskDescriptionLength := 200
    cleanupIntervalMs := 60 * 1000
    dependencyCheckIntervalMs := 100
    maxWorkersPerSession := 1000
    maxWorkUnitsPerSession := 10000
    maxDiscoveriesPerSession := 50000 }

/-! ## Store state (the `SharedMemoryStore` instance fields) -/

structure Store where
  sessions : Assoc Session
  contexts : Assoc FullContext
  contextRefs : Assoc ContextRef
  contextRefCount : Assoc (List String)
  discoveries : Assoc (List Discovery)
  outputs : Assoc (Assoc OutputPublication)
  dependencyWaiters : Assoc (List DependencyWaitRequest)
  dependencyResolvers : Assoc (List Waiter)
  workUnitIndex : Assoc (Assoc WorkUnit)
  config : SharedMemoryConfig
  activeTimers : List Nat
  nextId : Nat
deriving DecidableEq, Repr

def mkStore (config : SharedMemoryConfig) : Store :=
  { sessions := [], contexts := [], contextRefs := [], contextRefCount := []
    discoveries := [], outputs := [], dependencyWaiters := []
    dependencyResolvers := [], workUnitIndex := []
    config := config, activeTimers := [], nextId := 0 }

/-- `generateId(prefix)`: the source concatenates a tag, `Date.now()` and
a random suffix; modelled as a fresh counter (freshness is all the engine
uses). -/
def generateId (st : Store) (tag : String) : String × Store :=
  (tag ++ "_" ++ toString st.nextId, { st with nextId := st.nextId + 1 })

/-- `estimateTokens`: `Math.ceil(text.length / 4)` -/
def estimateTokens (text : String) : Nat :=
  (text.length + 3) / 4

/-- Stand-in for `JSON.stringify(fullContext)`; only its length feeds the
token estimate, which no claim depends on. -/
def stringifyContext (fc : FullContext) : String :=
  fc.task_description
    ++ String.intercalate "," (fc.codebase_files.map (fun f => f.file_path ++ f.content_summary))
    ++ String.intercalate "," (fc.requirements.map (fun r => r.requirement_id ++ r.description))
    ++ String.intercalate "," fc.constraints

structure CompressionResult where
  summary : String
  reference_key : String
  expansion_hints : List String
  original_token_count : Nat
  compressed_token_count : Nat
deriving DecidableEq, Repr

/-- `compressContext` (the `compression_ratio` quotient field of the
source record is the quotient of the two token counts and is dropped;
`generateId('compress')` is still performed so the counter advances as in
the source). -/
def compressContext (st : Store) (fc : FullContext) : CompressionResult × Store :=
  let originalTokens := estimateTokens (stringifyContext fc)
  let summary :=
    "Task: " ++ (fc.task_description.take st.config.maxTaskDescriptionLength) ++ "..." ++ "\n"
      ++ "Files: " ++ toString fc.codebase_files.length ++ " files including "
      ++ String.intercalate ", " ((fc.codebase_files.take 3).map (fun f => f.file_path)) ++ "\n"
      ++ "Requirements: " ++ toString fc.requirements.length ++ " requirements ("
      ++ toString (fc.requirements.filter (fun r => r.priority = ReqPriority.must_have)).length
      ++ " critical)" ++ "\n"
      ++ "Constraints: " ++ toString fc.constraints.length ++ " constraints"
  let compressedTokens := estimateTokens summary
  let (refKey, st') := generateId st "compress"
  ({ summary := summary
     reference_key := refKey
     expansion_hints := ["codebase_files", "requirements", "constraints", "shared_knowledge"]
     original_token_count := originalTokens
     compressed_token_count := compressedTokens }, st')

/-- `storeContext(fullContext, sessionId)` -/
def storeContext (st : Store) (fc : FullContext) (sessionId : String) (now : Nat) :
    ContextRef × Store :=
  let (contextKey, st1) := generateId st "context"
  let (compressed, st2) := compressContext st1 fc
  let st3 := { st2 with contexts := setKey st2.contexts contextKey fc }
  let refs := (findKey st3.contextRefCount contextKey).getD []
  let st4 := { st3 with contextRefCount := setKey st3.contextRefCount contextKey (addElem refs sessionId) }
  let (refId, st5) := generateId st4 "ref"
  let contextRef : ContextRef :=
    { ref_id := refId
      summary := compressed.summary
      full_context_key := contextKey
      version := 1
      token_count := compressed.compressed_token_count
      created_at := now }
  (contextRef, { st5 with contextRefs := setKey st5.contextRefs contextRef.ref_id contextRef })

/-- `createSession(coordinatorId, workerIds, fullContext, ttl?)`.
`ttl: ttl || this.config.defaultTTL` — an absent **or zero** ttl is
replaced by the default. -/
def createSession (st : Store) (coordinatorId : String) (workerIds : List String)
    (fullContext : FullContext) (ttl : Option Nat) (now : Nat) : String × Store :=
  let (sessionId, st1) := generateId st "session"
  let (contextRef, st2) := storeContext st1 fullContext sessionId now
  let ttlVal := match ttl with
    | some t => if t = 0 then st.config.defaultTTL else t
    | none => st.config.defaultTTL
  let session : Session :=
    { session_id := sessionId
      coordinator_id := coordinatorId
      worker_ids := workerIds
      shared_context := contextRef
      work_units := []
      discoveries := []
      outputs := []
      status := SessionStatus.planning
      created_at := now
      updated_at := now
      ttl := ttlVal }
  (sessionId,
    { st2 with
      sessions := setKey st2.sessions sessionId session
      discoveries := setKey st2.discoveries sessionId []
      outputs := setKey st2.outputs sessionId []
      dependencyWaiters := setKey st2.dependencyWaiters sessionId []
      workUnitIndex := setKey st2.workUnitIndex sessionId [] })

/-- `isExpired(session)`: `if (!session.ttl) return false;
return Date.now() - session.created_at > session.ttl` (a zero ttl is
falsy, so such a session never expires; `Nat` truncated subtraction
matches the JS comparison since a negative difference is never `> ttl`). -/
def isExpired (s : Session) (now : Nat) : Bool :=
  if s.ttl = 0 then false else decide (now - s.created_at > s.ttl)

/-! ## Dependency graph and cycle detection (`hasCircularDependencies`) -/

/-- `graph.set(unit.unit_id, unit.dependencies || [])` over all units:
for duplicate ids the later unit overwrites the earlier one. -/
def buildGraph (units : List WorkUnit) : Assoc (List String) :=
  units.foldl (fun g u => setKey g u.unit_id u.dependencies) []

/-- `graph.get(unitId) || []` -/
def succs (g : Assoc (List String)) (a : String) : List String :=
  (findKey g a).getD []

/-- The edge relation of the dependency graph. -/
def edgeRel (g : Assoc (List String)) (x y : String) : Prop :=
  y ∈ succs g x

/-- The spec-level notion "the units contain a dependency cycle": some
node has a nonempty path back to itself. -/
def HasCycle (g : Assoc (List String)) : Prop :=
  ∃ a, Relation.TransGen (edgeRel g) a a

/-- All strings that can ever enter `visited` (keys and dependency
targets), deduplicated; drives the fuel bound. -/
def nodesD (g : Assoc (List String)) : List String :=
  (g.map Prod.fst ++ g.flatMap Prod.snd).dedup

/-- The body of the source's recursive `hasCycle(unitId)` closure:
`visited.add(u); recursionStack.add(u);` then the
`for (const dep of dependencies)` loop over `graph.get(u) || []` —
unvisited deps are recursed into, visited deps on the recursion stack
signal a cycle, and a `true` result short-circuits out (encoded by a
fold whose accumulator carries the found-flag and the shared mutable
`visited` set).  `stack` is the recursion stack, pushed on entry and
popped on a `false` return — equivalently, each call receives its
caller's stack.  The fuel only pads out termination: with the bound used
by `hasCircularDependencies` it is never exhausted (the source function
always terminates because `visited` grows strictly). -/
def visitNode (g : Assoc (List String)) : Nat → String → List String →
    List String → Bool × List String
  | 0, _, visited, _ => (true, visited)
  | fuel + 1, u, visited, stack =>
      (succs g u).foldl
        (fun acc d =>
          if acc.1 then acc
          else if d ∈ acc.2 then
            (if d ∈ u :: stack then (true, acc.2) else acc)
          else visitNode g fuel d acc.2 (u :: stack))
        (false, u :: visited)

/-- One iteration of the dependency loop of `visitNode`, named for the
proofs below (the lambda inside `visitNode` is definitionally
`visitStep g fuel (u :: stack)`). -/
def visitStep (g : Assoc (List String)) (fuel : Nat) (stack : List String)
    (acc : Bool × List String) (d : String) : Bool × List String :=
  if acc.1 then acc
  else if d ∈ acc.2 then
    (if d ∈ stack then (true, acc.2) else acc)
  else visitNode g fuel d acc.2 stack

/-- The top-level `for (const unit of units)` loop of
`hasCircularDependencies`. -/
def scanUnits (g : Assoc (List String)) (fuel : Nat) :
    List WorkUnit → List String → Bool
  | [], _ => false
  | u :: us, visited =>
      if u.unit_id ∈ visited then scanUnits g fuel us visited
      else
        match visitNode g fuel u.unit_id visited [] with
        | (true, _) => true
        | (false, v) => scanUnits g fuel us v

/-- `hasCircularDependencies(units)` (the `catch` branch of the source —
return `true` on an internal error — is unreachable in the pure model). -/
def hasCircularDependencies (units : List WorkUnit) : Bool :=
  let g := buildGraph units
  scanUnits g ((nodesD g).length + 1) units []

/-! ## Engine operations -/

/-- `cleanupSession(sessionId)`: the single teardown path shared by lazy
expiry (`getSession`) and the reaper. -/
def cleanupSession (st : Store) (sessionId : String) : Store :=
  match findKey st.sessions sessionId with
  | none => st
  | some session =>
    let st1 := { st with
      sessions := delKey st.sessions sessionId
      discoveries := delKey st.discoveries sessionId
      outputs := delKey st.outputs sessionId
      dependencyWaiters := delKey st.dependencyWaiters sessionId
      workUnitIndex := delKey st.workUnitIndex sessionId }
    -- pending resolvers whose key starts with `sessionId + ":"`: clear
    -- their timers and drop the resolver entries
    let pfx := sessionId ++ ":"
    let cancelled := (st1.dependencyResolvers.filter
        (fun p => p.1.startsWith pfx)).flatMap (fun p => p.2.map Waiter.timeoutId)
    let st2 := { st1 with
      dependencyResolvers := st1.dependencyResolvers.filter (fun p => ¬ p.1.startsWith pfx)
      activeTimers := st1.activeTimers.filter (fun t => t ∉ cancelled) }
    -- reference counting on the context blob
    let contextKey := session.shared_context.full_context_key
    match findKey st2.contextRefCount contextKey with
    | none => st2
    | some refs =>
      let refs' := refs.erase sessionId
      if refs'.length = 0 then
        { st2 with
          contexts := delKey st2.contexts contextKey
          contextRefCount := delKey st2.contextRefCount contextKey
          contextRefs := delKey st2.contextRefs session.shared_context.ref_id }
      else
        { st2 with contextRefCount := setKey st2.contextRefCount contextKey refs' }

/-- `getSession(sessionId)`: lazy TTL expiry on read. -/
def getSession (st : Store) (sessionId : String) (now : Nat) :
    Option Session × Store :=
  match findKey st.sessions sessionId with
  | none => (none, st)
  | some session =>
    if isExpired session now then (none, cleanupSession st sessionId)
    else (some session, st)

/-- One tick of the cleanup timer (`startCleanupTimer` callback): collect
the expired session ids, then tear each one down. -/
def reaperSweep (st : Store) (now : Nat) : Store :=
  let expired := (st.sessions.filter (fun p => isExpired p.2 now)).map Prod.fst
  expired.foldl cleanupSession st

/-- `updateSessionStatus(sessionId, status)` -/
def updateSessionStatus (st : Store) (sessionId : String) (status : SessionStatus)
    (now : Nat) : Bool × Store :=
  match findKey st.sessions sessionId with
  | none => (false, st)
  | some session =>
    let session' := { session with status := status, updated_at := now }
    (true, { st with sessions := setKey st.sessions sessionId session' })

/-- `getFullContext(refId)` -/
def getFullContext (st : Store) (refId : String) : Option FullContext :=
  match findKey st.contextRefs refId with
  | none => none
  | some contextRef => findKey st.contexts contextRef.full_context_key

/-- One named top-level section of a context blob. -/
inductive SectionData
  | files (l : List FileContext)
  | reqs (l : List Requirement)
  | constraintList (l : List String)
  | knowledge (l : List SharedKnowledge)
  | taskDescription (s : String)
  | metadataMap (m : Assoc Dat)
deriving DecidableEq, Repr

/-- `expandContextSection(refId, section)`: `null` when the reference or
blob is gone; the `default` branch is `(fullContext as any)[section] || null`,
so the two remaining top-level fields are returned by name (an empty
task-description string is falsy and yields `null`) and unknown names
yield `null`. -/
def expandContextSection (st : Store) (refId : String) (sectionName : String) :
    Option SectionData :=
  match getFullContext st refId with
  | none => none
  | some fc =>
    if sectionName = "codebase_files" then some (SectionData.files fc.codebase_files)
    else if sectionName = "requirements" then some (SectionData.reqs fc.requirements)
    else if sectionName = "constraints" then some (SectionData.constraintList fc.constraints)
    else if sectionName = "shared_knowledge" then some (SectionData.knowledge fc.shared_knowledge)
    else if sectionName = "task_description" then
      (if fc.task_description = "" then none else some (SectionData.taskDescription fc.task_description))
    else if sectionName = "metadata" then some (SectionData.metadataMap fc.metadata)
    else none

/-- Outcome of `publishWorkUnits`: `noSession` is the `return false`
paths, `cycleDetected` the thrown `Error('Circular dependencies
detected in work units')` (surfaced as a structural violation), `ok` the
`return true` path. -/
inductive PubOutcome
  | noSession | cycleDetected | ok
deriving DecidableEq, Repr

/-- `publishWorkUnits(sessionId, units)`: cycle check on the union of the
existing units and the batch, before any mutation; on success every unit
is pushed onto the session's array and set in the per-session index. -/
def publishWorkUnits (st : Store) (sessionId : String) (units : List WorkUnit)
    (now : Nat) : PubOutcome × Store :=
  match findKey st.sessions sessionId with
  | none => (PubOutcome.noSession, st)
  | some session =>
    match findKey st.workUnitIndex sessionId with
    | none => (PubOutcome.noSession, st)
    | some sessionUnits =>
      let allUnits := session.work_units ++ units
      if hasCircularDependencies allUnits then (PubOutcome.cycleDetected, st)
      else
        let newIndex := units.foldl (fun m u => setKey m u.unit_id u) sessionUnits
        let session' := { session with work_units := session.work_units ++ units, updated_at := now }
        (PubOutcome.ok,
          { st with
            sessions := setKey st.sessions sessionId session'
            workUnitIndex := setKey st.workUnitIndex sessionId newIndex })

/-- Replace the **last** entry with the given unit id.  The source
mutates the `WorkUnit` object obtained from the index; that object is
also the most recently pushed element with that id in the session's
`work_units` array (the index is written on every push, so it holds the
last-pushed object). -/
def updateLastUnit : List WorkUnit → String → WorkUnit → List WorkUnit
  | [], _, _ => []
  | u :: us, uid, u' =>
    if us.any (fun w => w.unit_id = uid) then u :: updateLastUnit us uid u'
    else if u.unit_id = uid then u' :: us
    else u :: us

/-- Shorthand for the record update `claimWorkUnit` applies to a
successfully claimed unit. -/
def claimedUpdate (u : WorkUnit) (w : String) (d n : Nat) : WorkUnit :=
  { u with status := WUStatus.claimed, claimed_by := some w, estimated_duration := some d, updated_at := n }

/-- Shorthand for the session update a successful `claimWorkUnit`
performs. -/
def claimedSession (s : Session) (uid : String) (u' : WorkUnit) (n : Nat) : Session :=
  { s with work_units := updateLastUnit s.work_units uid u', updated_at := n }

/-- `claimWorkUnit(sessionId, unitId, workerId, estimatedDuration)` -/
def claimWorkUnit (st : Store) (sessionId unitId workerId : String)
    (estimatedDuration : Nat) (now : Nat) : Bool × Store :=
  match findKey st.sessions sessionId with
  | none => (false, st)
  | some session =>
    match findKey st.workUnitIndex sessionId with
    | none => (false, st)
    | some sessionUnits =>
      match findKey sessionUnits unitId with
      | none => (false, st)
      | some unit =>
        if unit.status ≠ WUStatus.available then (false, st)
        else
          let unit' := { unit with
            status := WUStatus.claimed
            claimed_by := some workerId
            estimated_duration := some estimatedDuration
            updated_at := now }
          let session' := { session with
            work_units := updateLastUnit session.work_units unitId unit'
            updated_at := now }
          (true,
            { st with
              sessions := setKey st.sessions sessionId session'
              workUnitIndex := setKey st.workUnitIndex sessionId (setKey sessionUnits unitId unit') })

/-- `appendDiscovery(sessionId, workerId, discovery)`: no session check;
evicts the oldest `max(1, floor(cap * 0.1))` entries when the per-session
count is at or above the cap, **then** assigns
`version = sessionDiscoveries.length + 1` on the post-eviction list. -/
def appendDiscovery (st : Store) (sessionId workerId : String)
    (dtype : DiscoveryType) (ddata : Dat) (affects : Option (List String))
    (now : Nat) : String × Store :=
  let sessionDiscoveries := (findKey st.discoveries sessionId).getD []
  let cap := st.config.maxDiscoveriesPerSession
  let sessionDiscoveries :=
    if sessionDiscoveries.length ≥ cap then
      sessionDiscoveries.drop (max 1 (cap / 10))
    else sessionDiscoveries
  let (did, st1) := generateId st "discovery"
  let record : Discovery :=
    { discovery_id := did
      session_id := sessionId
      worker_id := workerId
      type := dtype
      data := ddata
      affects_workers := affects
      timestamp := now
      version := sessionDiscoveries.length + 1 }
  let st2 := { st1 with discoveries := setKey st1.discoveries sessionId (sessionDiscoveries ++ [record]) }
  let st3 := match findKey st2.sessions sessionId with
    | some session =>
        { st2 with sessions := setKey st2.sessions sessionId { session with updated_at := now } }
    | none => st2
  (did, st3)

/-- `getDiscoveriesSince(sessionId, sinceTimestamp)` -/
def getDiscoveriesSince (st : Store) (sessionId : String) (sinceTimestamp : Nat) :
    List Discovery :=
  ((findKey st.discoveries sessionId).getD []).filter
    (fun d => d.timestamp > sinceTimestamp)

/-- The placeholder record `declareOutputs` creates for a key that is
not yet tracked (`data: null`, `version: 0`, `timestamp: 0`). -/
def outputPlaceholder (sessionId k workerId : String) : OutputPublication :=
  { session_id := sessionId, output_key := k, data := Dat.null, producer_worker := workerId, timestamp := 0, version := 0 }

/-- One iteration of the `for (const key of outputKeys)` loop of
`declareOutputs`: `if (!outputs[key])` create the placeholder. -/
def declStep (sessionId workerId : String) (m : Assoc OutputPublication)
    (k : String) : Assoc OutputPublication :=
  match findKey m k with
  | some _ => m
  | none => setKey m k (outputPlaceholder sessionId k workerId)

/-- `declareOutputs(sessionId, workerId, outputKeys)`: note the
membership test is `session.worker_ids.includes(workerId)` only — the
coordinator is **not** accepted. -/
def declareOutputs (st : Store) (sessionId workerId : String)
    (outputKeys : List String) : Bool × Store :=
  match findKey st.sessions sessionId with
  | none => (false, st)
  | some session =>
    if workerId ∈ session.worker_ids then
      let outs := (findKey st.outputs sessionId).getD []
      let outs' := outputKeys.foldl (declStep sessionId workerId) outs
      (true, { st with outputs := setKey st.outputs sessionId outs' })
    else (false, st)

/-- Synchronous outcome of `awaitDependency`: either the data was
already non-null and is returned at once, or a wait request, a promise
resolver and a timeout timer are registered. -/
inductive AwaitOutcome
  | ready (d : Dat)
  | waiting (rid : Nat)
deriving DecidableEq, Repr

/-- `awaitDependency(sessionId, dependencyKey, timeoutMs)` up to the
point where the caller suspends.  The timeout callback itself (lines
780–803 of the source) fires later and is not needed by the claims
settled here; its timer handle is recorded in `activeTimers`. -/
def awaitDependency (st : Store) (sessionId dependencyKey : String)
    (timeoutMs : Nat) (now : Nat) : AwaitOutcome × Store :=
  let outs := (findKey st.outputs sessionId).getD []
  match findKey outs dependencyKey with
  | some output =>
    if output.data ≠ Dat.null then (AwaitOutcome.ready output.data, st)
    else awaitRegister st sessionId dependencyKey timeoutMs now
  | none => awaitRegister st sessionId dependencyKey timeoutMs now
where
  /-- the waiter-registration tail of `awaitDependency` -/
  awaitRegister (st : Store) (sessionId dependencyKey : String)
      (timeoutMs : Nat) (now : Nat) : AwaitOutcome × Store :=
    let waiters := (findKey st.dependencyWaiters sessionId).getD []
    let waitRequest : DependencyWaitRequest :=
      { session_id := sessionId
        dependency_key := dependencyKey
        requesting_worker := "unknown"
        timeout_ms := timeoutMs
        created_at := now }
    let resolverKey := sessionId ++ ":" ++ dependencyKey
    let rid := st.nextId
    let timerId := st.nextId + 1
    let resolvers := (findKey st.dependencyResolvers resolverKey).getD []
    (AwaitOutcome.waiting rid,
      { st with
        dependencyWaiters := setKey st.dependencyWaiters sessionId (waiters ++ [waitRequest])
        dependencyResolvers := setKey st.dependencyResolvers resolverKey
          (resolvers ++ [{ rid := rid, timeoutId := timerId }])
        activeTimers := st.activeTimers ++ [timerId]
        nextId := st.nextId + 2 })

/-- `publishOutput(sessionId, outputKey, data)`: fails (state untouched)
when the key was never declared; otherwise overwrites the publication,
bumps its version, stamps it, and resolves every registered waiter for
`sessionId:outputKey` with the published data, clearing their timers.
The resolution events (resolver id, delivered data) are returned next to
the new state. -/
def publishOutput (st : Store) (sessionId outputKey : String) (d : Dat)
    (now : Nat) : Bool × Store × List (Nat × Dat) :=
  let outs := (findKey st.outputs sessionId).getD []
  match findKey outs outputKey with
  | none => (false, st, [])
  | some existing =>
    let pub' := { existing with data := d, timestamp := now, version := existing.version + 1 }
    let st1 := { st with outputs := setKey st.outputs sessionId (setKey outs outputKey pub') }
    let resolverKey := sessionId ++ ":" ++ outputKey
    match findKey st1.dependencyResolvers resolverKey with
    | some resolvers =>
      if resolvers.length > 0 then
        let timerIds := resolvers.map Waiter.timeoutId
        (true,
          { st1 with
            dependencyResolvers := delKey st1.dependencyResolvers resolverKey
            activeTimers := st1.activeTimers.filter (fun t => t ∉ timerIds) },
          resolvers.map (fun w => (w.rid, d)))
      else (true, st1, [])
    | none => (true, st1, [])

/-- `getSessionStats()` -/
structure SessionStats where
  active : Nat
  total_contexts : Nat
  total_discoveries : Nat
deriving DecidableEq, Repr

def getSessionStats (st : Store) : SessionStats :=
  { active := st.sessions.length
    total_contexts := st.contexts.length
    total_discoveries := (st.discoveries.map (fun p => p.2.length)).sum }

/-- The eviction step of `appendDiscovery`, named for the statements
below: at or above the cap, drop the oldest `max(1, floor(cap * 0.1))`
entries (`cap * 0.1` under floating point equals `cap / 10` for every
realistically configurable cap, and exactly for the default 50000). -/
def evictedList (l : List Discovery) (cap : Nat) : List Discovery :=
  if l.length ≥ cap then l.drop (max 1 (cap / 10)) else l

/-- Arguments of one `append_discovery` call, for reasoning about call
sequences. -/
structure AppendReq where
  worker : String
  dtype : DiscoveryType
  ddata : Dat
  affects : Option (List String)
  at_time : Nat
deriving DecidableEq, Repr

/-- Run a sequence of `append_discovery` calls against one session. -/
def appendMany (st : Store) (sid : String) : List AppendReq → Store
  | [] => st
  | r :: rs =>
      appendMany (appendDiscovery st sid r.worker r.dtype r.ddata r.affects r.at_time).2 sid rs

/-! ## Concrete instances used by witnesses and counterexamples -/

/-- Smallest well-formed context blob. -/
def ctx0 : FullContext :=
  { task_description := "t", codebase_files := [], requirements := []
    constraints := [], shared_knowledge := [], metadata := [] }

/-- Configuration with a discovery cap of 2 (the cap is configurable;
`maxDiscoveriesPerSession` defaults to 50000). -/
def cfgCap2 : SharedMemoryConfig :=
  { defaultConfig with maxDiscoveriesPerSession := 2 }

/-- A fresh available work unit. -/
def mkUnit (uid : String) (deps : List String) : WorkUnit :=
  { unit_id := uid, type := "task", description := "demo"
    status := WUStatus.available, claimed_by := none
    estimated_duration := none, actual_duration := none
    dependencies := deps, priority := WUPriority.medium, result := none
    created_at := 0, updated_at := 0 }

/-- A store holding one freshly created session
(`demoCreate.1 = "session_0"`, coordinator `boss`, workers `w1`, `w2`). -/
def demoCreate : String × Store :=
  createSession (mkStore defaultConfig) "boss" ["w1", "w2"] ctx0 (some 1000) 0

/-- The demo session extended with one available work unit `u1`. -/
def demoStore2 : Store :=
  (publishWorkUnits demoCreate.2 demoCreate.1 [mkUnit "u1" []] 1).2

/-- The demo session with output key `k` declared by worker `w1`. -/
def demoStore3 : Store :=
  (declareOutputs demoStore2 demoCreate.1 "w1" ["k"]).2

/-- Shorthand for the session update a successful `publishWorkUnits`
performs. -/
def publishedSession (s : Session) (units : List WorkUnit) (now : Nat) : Session :=
  { s with work_units := s.work_units ++ units, updated_at := now }

/-- Shorthand for the record update `publishOutput` applies to a
declared publication. -/
def publishedUpdate (ex : OutputPublication) (d : Dat) (now : Nat) : OutputPublication :=
  { ex with data := d, timestamp := now, version := ex.version + 1 }

/-- The demo session with a waiter registered on the declared but
unpublished key `k` (resolver id 4, timer id 5). -/
def demoStore4 : Store :=
  (awaitDependency demoStore3 "session_0" "k" 100 5).2

/-- The demo session after `publish_output` of a JS `null` payload on
the declared key `k`. -/
def demoStore5 : Store :=
  (publishOutput demoStore3 "session_0" "k" Dat.null 6).2.1

/-! ## Association-list lemmas -/

theorem findKey_setKey_self {α : Type} (m : Assoc α) (k : String) (v : α) :
    findKey (setKey m k v) k = some v := by
  induction m with
  | nil => simp [setKey, findKey]
  | cons p rest ih =>
    obtain ⟨k', v'⟩ := p
    by_cases h : k' = k
    · simp [setKey, h, findKey]
    · simp [setKey, h, findKey, ih]

theorem findKey_setKey_ne {α : Type} (m : Assoc α) (k k' : String) (v : α)
    (h : k ≠ k') : findKey (setKey m k v) k' = findKey m k' := by
  induction m with
  | nil => simp [setKey, findKey, h]
  | cons p rest ih =>
    obtain ⟨k'', v''⟩ := p
    by_cases h2 : k'' = k
    · subst h2
      simp [setKey, findKey, h]
    · simp [setKey, h2, findKey, ih]

theorem findKey_delKey {α : Type} (m : Assoc α) (k k' : String) :
    findKey (delKey m k) k' = if k' = k then none else findKey m k' := by
  induction m with
  | nil => simp [delKey, findKey]
  | cons p rest ih =>
    obtain ⟨a, b⟩ := p
    by_cases hak : a = k
    · subst hak
      have hdrop : delKey ((a, b) :: rest) a = delKey rest a := by
        simp [delKey]
      rw [hdrop, ih]
      by_cases h3 : k' = a
      · simp [h3]
      · simp [h3, findKey, Ne.symm h3]
    · have hkeep : delKey ((a, b) :: rest) k = (a, b) :: delKey rest k := by
        simp [delKey, hak]
      rw [hkeep]
      by_cases hak' : a = k'
      · subst hak'
        simp [findKey, hak]
      · simp [findKey, hak', ih]

theorem setKey_of_not_mem {α : Type} (m : Assoc α) (k : String) (v : α)
    (h : findKey m k = none) : setKey m k v = m ++ [(k, v)] := by
  induction m with
  | nil => simp [setKey]
  | cons p rest ih =>
    obtain ⟨k', v'⟩ := p
    by_cases h2 : k' = k
    · simp [findKey, h2] at h
    · simp [findKey, h2] at h
      simp [setKey, h2, ih h]

theorem findKey_mem {α : Type} {m : Assoc α} {k : String} {v : α}
    (h : findKey m k = some v) : (k, v) ∈ m := by
  induction m with
  | nil => simp [findKey] at h
  | cons p rest ih =>
    obtain ⟨k', v'⟩ := p
    by_cases h2 : k' = k
    · subst h2
      simp [findKey] at h
      simp [h]
    · simp [findKey, h2] at h
      simp [ih h]

/-! ## C10: append_discovery on a missing session -/

/-- C10: `append_discovery` never fails on a missing session: when the
session id names no live session (no session record and no discovery
list — the state both of an id never created and of one already torn
down), the call still succeeds, returns a fresh discovery id, creates
the per-session discovery list keyed by the session id, and the new
entry is counted by `get_session_stats().total_discoveries` and returned
by `get_discoveries_since`. -/
theorem appendDiscovery_missing_session
    (st : Store) (sid w : String) (ty : DiscoveryType) (dd : Dat)
    (aff : Option (List String)) (now t : Nat)
    (hs : findKey st.sessions sid = none)
    (hd : findKey st.discoveries sid = none)
    (ht : t < now) :
    (appendDiscovery st sid w ty dd aff now).1 = "discovery_" ++ toString st.nextId ∧
    findKey (appendDiscovery st sid w ty dd aff now).2.discoveries sid =
      some [⟨"discovery_" ++ toString st.nextId, sid, w, ty, dd, aff, now, 1⟩] ∧
    (getSessionStats (appendDiscovery st sid w ty dd aff now).2).total_discoveries =
      (getSessionStats st).total_discoveries + 1 ∧
    getDiscoveriesSince (appendDiscovery st sid w ty dd aff now).2 sid t =
      [⟨"discovery_" ++ toString st.nextId, sid, w, ty, dd, aff, now, 1⟩] := by
  refine ⟨?_, ?_, ?_, ?_⟩
  · simp [appendDiscovery, generateId, hd]
  · simp [appendDiscovery, generateId, hd, hs, findKey_setKey_self]
  · simp only [appendDiscovery, generateId, hd, hs, Option.getD_none, List.length_nil,
      List.drop_nil, ite_self, List.nil_append, getSessionStats]
    rw [setKey_of_not_mem _ _ _ hd]
    simp
  · simp [getDiscoveriesSince, appendDiscovery, generateId, hd, hs, findKey_setKey_self, ht]

/-- Witness for C10 at a concrete input (empty store, session id
`ghost` was never created). -/
theorem appendDiscovery_missing_session_witness :
    findKey (mkStore defaultConfig).sessions "ghost" = none ∧
    (appendDiscovery (mkStore defaultConfig) "ghost" "w" DiscoveryType.function_found
      (Dat.val "x") none 5).1 = "discovery_0" ∧
    getDiscoveriesSince (appendDiscovery (mkStore defaultConfig) "ghost" "w"
      DiscoveryType.function_found (Dat.val "x") none 5).2 "ghost" 0 =
      [⟨"discovery_0", "ghost", "w", DiscoveryType.function_found, Dat.val "x", none, 5, 1⟩] := by
  have h := appendDiscovery_missing_session (mkStore defaultConfig) "ghost" "w"
    DiscoveryType.function_found (Dat.val "x") none 5 0 (by rfl) (by rfl) (by decide)
  exact ⟨by rfl, h.1, h.2.2.2⟩

/-! ## C7: bounded discovery log -/

theorem appendDiscovery_discoveries (st : Store) (sid w : String)
    (ty : DiscoveryType) (dd : Dat) (aff : Option (List String)) (now : Nat) :
    (appendDiscovery st sid w ty dd aff now).2.discoveries =
      setKey st.discoveries sid
        (evictedList ((findKey st.discoveries sid).getD [])
            st.config.maxDiscoveriesPerSession
          ++ [⟨"discovery_" ++ toString st.nextId, sid, w, ty, dd, aff, now,
               (evictedList ((findKey st.discoveries sid).getD [])
                 st.config.maxDiscoveriesPerSession).length + 1⟩]) := by
  simp only [appendDiscovery, generateId, evictedList]
  split <;> rfl

theorem appendDiscovery_config (st : Store) (sid w : String)
    (ty : DiscoveryType) (dd : Dat) (aff : Option (List String)) (now : Nat) :
    (appendDiscovery st sid w ty dd aff now).2.config = st.config := by
  simp only [appendDiscovery, generateId]
  split <;> rfl

theorem evictedList_append_length {l : List Discovery} {cap : Nat}
    (hcap : 1 ≤ cap) (hlen : l.length ≤ cap) (r : Discovery) :
    (evictedList l cap ++ [r]).length ≤ cap := by
  unfold evictedList
  by_cases hge : l.length ≥ cap
  · have hk : 1 ≤ max 1 (cap / 10) := le_max_left _ _
    simp only [hge, if_pos, List.length_append, List.length_drop, List.length_singleton]
    omega
  · simp only [hge, if_neg, not_false_iff, List.length_append, List.length_singleton]
    omega

theorem appendMany_bounded (sid : String) (reqs : List AppendReq) :
    ∀ st : Store, 1 ≤ st.config.maxDiscoveriesPerSession →
      ((findKey st.discoveries sid).getD []).length ≤ st.config.maxDiscoveriesPerSession →
      ((findKey (appendMany st sid reqs).discoveries sid).getD []).length ≤
        st.config.maxDiscoveriesPerSession := by
  induction reqs with
  | nil => intro st _ h; exact h
  | cons r rs ih =>
    intro st hcap hlen
    have hcfg := appendDiscovery_config st sid r.worker r.dtype r.ddata r.affects r.at_time
    have hstep := appendDiscovery_discoveries st sid r.worker r.dtype r.ddata r.affects r.at_time
    have hnext : ((findKey (appendDiscovery st sid r.worker r.dtype r.ddata r.affects
        r.at_time).2.discoveries sid).getD []).length ≤ st.config.maxDiscoveriesPerSession := by
      rw [hstep, findKey_setKey_self]
      exact evictedList_append_length hcap hlen _
    have := ih (appendDiscovery st sid r.worker r.dtype r.ddata r.affects r.at_time).2
      (by rw [hcfg]; exact hcap) (by rw [hcfg]; exact hnext)
    rw [hcfg] at this
    exact this

/-- C7: the discovery log is bounded.  (a) when the per-session count is
at or above the cap, exactly the oldest `max(1, floor(cap/10))` entries
are evicted before the append; (b) one append never pushes the count
past the cap; (c) the freshly appended entry is the last element of the
retained list; (d) any sequence of `append_discovery` calls starting at
or below the cap keeps the per-session count at or below the cap. -/
theorem appendDiscovery_bounded_log
    (st : Store) (sid w : String) (ty : DiscoveryType) (dd : Dat)
    (aff : Option (List String)) (now : Nat) (reqs : List AppendReq)
    (hcap : 1 ≤ st.config.maxDiscoveriesPerSession)
    (hlen : ((findKey st.discoveries sid).getD []).length ≤
      st.config.maxDiscoveriesPerSession) :
    ((findKey (appendDiscovery st sid w ty dd aff now).2.discoveries sid).getD []) =
      evictedList ((findKey st.discoveries sid).getD [])
          st.config.maxDiscoveriesPerSession
        ++ [⟨"discovery_" ++ toString st.nextId, sid, w, ty, dd, aff, now,
             (evictedList ((findKey st.discoveries sid).getD [])
               st.config.maxDiscoveriesPerSession).length + 1⟩] ∧
    ((findKey (appendDiscovery st sid w ty dd aff now).2.discoveries sid).getD []).length ≤
      st.config.maxDiscoveriesPerSession ∧
    ((findKey (appendDiscovery st sid w ty dd aff now).2.discoveries sid).getD []).getLast? =
      some ⟨"discovery_" ++ toString st.nextId, sid, w, ty, dd, aff, now,
        (evictedList ((findKey st.discoveries sid).getD [])
          st.config.maxDiscoveriesPerSession).length + 1⟩ ∧
    ((findKey (appendMany st sid reqs).discoveries sid).getD []).length ≤
      st.config.maxDiscoveriesPerSession := by
  have hstep := appendDiscovery_discoveries st sid w ty dd aff now
  have hfound : ((findKey (appendDiscovery st sid w ty dd aff now).2.discoveries sid).getD []) =
      evictedList ((findKey st.discoveries sid).getD [])
          st.config.maxDiscoveriesPerSession
        ++ [⟨"discovery_" ++ toString st.nextId, sid, w, ty, dd, aff, now,
             (evictedList ((findKey st.discoveries sid).getD [])
               st.config.maxDiscoveriesPerSession).length + 1⟩] := by
    rw [hstep, findKey_setKey_self]
    rfl
  refine ⟨hfound, ?_, ?_, ?_⟩
  · rw [hfound]
    exact evictedList_append_length hcap hlen _
  · rw [hfound]
    simp
  · exact appendMany_bounded sid reqs st hcap hlen

/-- Witness for C7 at a concrete input (cap 2, two entries already
present, a third append evicts the oldest entry and keeps the count at
the cap). -/
theorem appendDiscovery_bounded_log_witness :
    1 ≤ (appendMany (mkStore cfgCap2) "s"
      [⟨"w", DiscoveryType.function_found, Dat.val "x", none, 1⟩,
       ⟨"w", DiscoveryType.function_found, Dat.val "y", none, 2⟩]).config.maxDiscoveriesPerSession ∧
    ((findKey (appendDiscovery (appendMany (mkStore cfgCap2) "s"
      [⟨"w", DiscoveryType.function_found, Dat.val "x", none, 1⟩,
       ⟨"w", DiscoveryType.function_found, Dat.val "y", none, 2⟩]) "s" "w"
      DiscoveryType.function_found (Dat.val "z") none 3).2.discoveries "s").getD []).length ≤ 2 := by
  have h := appendDiscovery_bounded_log
    (appendMany (mkStore cfgCap2) "s"
      [⟨"w", DiscoveryType.function_found, Dat.val "x", none, 1⟩,
       ⟨"w", DiscoveryType.function_found, Dat.val "y", none, 2⟩])
    "s" "w" DiscoveryType.function_found (Dat.val "z") none 3 []
    (by decide) (by decide)
  exact ⟨by decide, h.2.1⟩

/-! ## C4: discovery version monotonicity -/

/-- C4 counterexample: with the cap configured to 2, after three
appends into a session the discovery appended second carries version 2
and the discovery appended third **also** carries version 2 — the new
version is not strictly greater than every previously assigned one,
because `version = sessionDiscoveries.length + 1` is computed on the
post-eviction list.  The final log is `[version 2, version 2]`. -/
theorem appendDiscovery_version_not_monotonic :
    (createSession (mkStore cfgCap2) "boss" ["w1"] ctx0 (some 1000) 0).1 = "session_0" ∧
    (((findKey (appendDiscovery (appendDiscovery (appendDiscovery
      (createSession (mkStore cfgCap2) "boss" ["w1"] ctx0 (some 1000) 0).2
      "session_0" "w1" DiscoveryType.function_found (Dat.val "x") none 1).2
      "session_0" "w1" DiscoveryType.function_found (Dat.val "y") none 2).2
      "session_0" "w1" DiscoveryType.function_found (Dat.val "z") none 3).2.discoveries
      "session_0").getD []).map Discovery.version) = [2, 2] := by
  constructor
  · rfl
  · decide

/-- C4 amended: `append_discovery` assigns
`version = (post-eviction count) + 1`; as long as the per-session count
stays strictly below the cap (so no eviction fires) the new version is
strictly greater than the version of every retained discovery, and the
bound `version ≤ count` is preserved.  Once eviction fires the version
counter can repeat or decrease (see the counterexample). -/
theorem appendDiscovery_version_below_cap
    (st : Store) (sid w : String) (ty : DiscoveryType) (dd : Dat)
    (aff : Option (List String)) (now : Nat)
    (hVB : ∀ d ∈ (findKey st.discoveries sid).getD [], d.version ≤
      ((findKey st.discoveries sid).getD []).length)
    (hlt : ((findKey st.discoveries sid).getD []).length <
      st.config.maxDiscoveriesPerSession) :
    ((findKey (appendDiscovery st sid w ty dd aff now).2.discoveries sid).getD []) =
      (findKey st.discoveries sid).getD []
        ++ [⟨"discovery_" ++ toString st.nextId, sid, w, ty, dd, aff, now,
             ((findKey st.discoveries sid).getD []).length + 1⟩] ∧
    (∀ d ∈ (findKey st.discoveries sid).getD [],
      d.version < ((findKey st.discoveries sid).getD []).length + 1) ∧
    (∀ d ∈ (findKey (appendDiscovery st sid w ty dd aff now).2.discoveries sid).getD [],
      d.version ≤
        ((findKey (appendDiscovery st sid w ty dd aff now).2.discoveries sid).getD []).length) := by
  have hnoev : evictedList ((findKey st.discoveries sid).getD [])
      st.config.maxDiscoveriesPerSession = (findKey st.discoveries sid).getD [] := by
    unfold evictedList
    simp [Nat.not_le.mpr hlt]
  have hstep := appendDiscovery_discoveries st sid w ty dd aff now
  have hfound : ((findKey (appendDiscovery st sid w ty dd aff now).2.discoveries sid).getD []) =
      (findKey st.discoveries sid).getD []
        ++ [⟨"discovery_" ++ toString st.nextId, sid, w, ty, dd, aff, now,
             ((findKey st.discoveries sid).getD []).length + 1⟩] := by
    rw [hstep, findKey_setKey_self, hnoev]
    rfl
  refine ⟨hfound, ?_, ?_⟩
  · intro d hd
    exact Nat.lt_succ_of_le (hVB d hd)
  · intro d hd
    rw [hfound] at hd
    rw [hfound]
    simp only [List.length_append, List.length_singleton]
    rcases List.mem_append.mp hd with h | h
    · exact le_trans (hVB d h) (Nat.le_succ _)
    · simp only [List.mem_singleton] at h
      subst h
      simp

/-- Witness for the amended C4 at a concrete input (empty log, below
the default cap). -/
theorem appendDiscovery_version_below_cap_witness :
    ((findKey (appendDiscovery (mkStore defaultConfig) "s" "w"
      DiscoveryType.function_found (Dat.val "x") none 7).2.discoveries "s").getD []).map
      Discovery.version = [1] := by
  have h := appendDiscovery_version_below_cap (mkStore defaultConfig) "s" "w"
    DiscoveryType.function_found (Dat.val "x") none 7
    (by intro d hd; simp [mkStore, findKey] at hd) (by decide)
  rw [h.1]
  rfl

/-! ## C2: claim_work_unit semantics and exclusivity -/

theorem claimWorkUnit_true_iff (st : Store) (sid uid w : String) (d n : Nat) :
    (claimWorkUnit st sid uid w d n).1 = true ↔
      ∃ s idx u, findKey st.sessions sid = some s ∧
        findKey st.workUnitIndex sid = some idx ∧
        findKey idx uid = some u ∧ u.status = WUStatus.available := by
  constructor
  · intro h
    rcases hfs : findKey st.sessions sid with _ | s
    · simp only [claimWorkUnit, hfs] at h
      simp at h
    rcases hfi : findKey st.workUnitIndex sid with _ | idx
    · simp only [claimWorkUnit, hfs, hfi] at h
      simp at h
    rcases hfu : findKey idx uid with _ | u
    · simp only [claimWorkUnit, hfs, hfi, hfu] at h
      simp at h
    by_cases hst : u.status = WUStatus.available
    · exact ⟨s, idx, u, rfl, rfl, hfu, hst⟩
    · simp only [claimWorkUnit, hfs, hfi, hfu] at h
      simp [hst] at h
  · rintro ⟨s, idx, u, hfs, hfi, hfu, hst⟩
    simp only [claimWorkUnit, hfs, hfi, hfu]
    simp [hst]

theorem claimWorkUnit_false_eq (st : Store) (sid uid w : String) (d n : Nat)
    (h : (claimWorkUnit st sid uid w d n).1 = false) :
    (claimWorkUnit st sid uid w d n).2 = st := by
  rcases hfs : findKey st.sessions sid with _ | s
  · simp only [claimWorkUnit, hfs]
  rcases hfi : findKey st.workUnitIndex sid with _ | idx
  · simp only [claimWorkUnit, hfs, hfi]
  rcases hfu : findKey idx uid with _ | u
  · simp only [claimWorkUnit, hfs, hfi, hfu]
  by_cases hst : u.status = WUStatus.available
  · simp only [claimWorkUnit, hfs, hfi, hfu] at h
    simp [hst] at h
  · simp only [claimWorkUnit, hfs, hfi, hfu]
    simp [hst]

theorem claimWorkUnit_success (st : Store) (sid uid w : String) (d n : Nat)
    (s : Session) (idx : Assoc WorkUnit) (u : WorkUnit)
    (hfs : findKey st.sessions sid = some s)
    (hfi : findKey st.workUnitIndex sid = some idx)
    (hfu : findKey idx uid = some u)
    (hst : u.status = WUStatus.available) :
    (claimWorkUnit st sid uid w d n).1 = true ∧
    (claimWorkUnit st sid uid w d n).2.sessions =
      setKey st.sessions sid (claimedSession s uid (claimedUpdate u w d n) n) ∧
    (claimWorkUnit st sid uid w d n).2.workUnitIndex =
      setKey st.workUnitIndex sid (setKey idx uid (claimedUpdate u w d n)) := by
  simp only [claimWorkUnit, hfs, hfi, hfu]
  simp [hst, claimedUpdate, claimedSession]

/-- C2: `claim_work_unit` returns true iff the unit exists in the
session's index and is `available`; on success the unit becomes
`claimed` with the claimant and estimate recorded; on failure the state
is untouched; and a second claim on the same unit by another worker
fails, leaving `claimed_by` at the first claimant — exactly one of two
successive claims succeeds. -/
theorem claimWorkUnit_exclusive
    (st : Store) (sid uid w1 w2 : String) (d1 d2 n1 n2 : Nat) :
    ((claimWorkUnit st sid uid w1 d1 n1).1 = true ↔
      ∃ s idx u, findKey st.sessions sid = some s ∧
        findKey st.workUnitIndex sid = some idx ∧
        findKey idx uid = some u ∧ u.status = WUStatus.available) ∧
    ((claimWorkUnit st sid uid w1 d1 n1).1 = false →
      (claimWorkUnit st sid uid w1 d1 n1).2 = st) ∧
    (∀ s idx u, findKey st.sessions sid = some s →
      findKey st.workUnitIndex sid = some idx →
      findKey idx uid = some u →
      u.status = WUStatus.available →
      (claimWorkUnit st sid uid w1 d1 n1).1 = true ∧
      findKey ((findKey (claimWorkUnit st sid uid w1 d1 n1).2.workUnitIndex sid).getD []) uid =
        some (claimedUpdate u w1 d1 n1) ∧
      (claimWorkUnit (claimWorkUnit st sid uid w1 d1 n1).2 sid uid w2 d2 n2).1 = false ∧
      (claimWorkUnit (claimWorkUnit st sid uid w1 d1 n1).2 sid uid w2 d2 n2).2 =
        (claimWorkUnit st sid uid w1 d1 n1).2 ∧
      (findKey ((findKey (claimWorkUnit (claimWorkUnit st sid uid w1 d1 n1).2 sid uid w2 d2
          n2).2.workUnitIndex sid).getD []) uid).map WorkUnit.claimed_by =
        some (some w1)) := by
  refine ⟨claimWorkUnit_true_iff st sid uid w1 d1 n1,
    claimWorkUnit_false_eq st sid uid w1 d1 n1, ?_⟩
  intro s idx u hfs hfi hfu hst
  obtain ⟨h1, hsess, hwidx⟩ := claimWorkUnit_success st sid uid w1 d1 n1 s idx u hfs hfi hfu hst
  have hidx : findKey ((findKey (claimWorkUnit st sid uid w1 d1 n1).2.workUnitIndex
      sid).getD []) uid = some (claimedUpdate u w1 d1 n1) := by
    rw [hwidx, findKey_setKey_self]
    exact findKey_setKey_self _ _ _
  have h2 : ¬ ((claimWorkUnit (claimWorkUnit st sid uid w1 d1 n1).2 sid uid w2 d2 n2).1
      = true) := by
    rw [claimWorkUnit_true_iff]
    rintro ⟨s2, idx2, u2, a1, a2, a3, a4⟩
    rw [hwidx, findKey_setKey_self] at a2
    have e2 : setKey idx uid (claimedUpdate u w1 d1 n1) = idx2 := by injection a2
    subst e2
    rw [findKey_setKey_self] at a3
    have e3 : claimedUpdate u w1 d1 n1 = u2 := by injection a3
    subst e3
    simp [claimedUpdate] at a4
  rw [Bool.not_eq_true] at h2
  have hunch := claimWorkUnit_false_eq (claimWorkUnit st sid uid w1 d1 n1).2 sid uid w2 d2 n2 h2
  refine ⟨h1, hidx, h2, hunch, ?_⟩
  rw [hunch, hidx]
  simp [claimedUpdate]

/-- Witness for C2 at a concrete input: one available unit `u1`; a
claim by `alpha` succeeds, a subsequent claim by `beta` fails and the
unit stays claimed by `alpha`. -/
theorem claimWorkUnit_exclusive_witness :
    (claimWorkUnit demoStore2 "session_0" "u1" "alpha" 5 2).1 = true ∧
    (claimWorkUnit (claimWorkUnit demoStore2 "session_0" "u1" "alpha" 5 2).2
      "session_0" "u1" "beta" 6 3).1 = false ∧
    (findKey ((findKey (claimWorkUnit (claimWorkUnit demoStore2 "session_0" "u1" "alpha" 5 2).2
        "session_0" "u1" "beta" 6 3).2.workUnitIndex "session_0").getD []) "u1").map
      WorkUnit.claimed_by = some (some "alpha") := by
  have h := (claimWorkUnit_exclusive demoStore2 "session_0" "u1" "alpha" "beta"
    5 6 2 3).2.2 _ _ _ rfl rfl rfl rfl
  exact ⟨h.1, h.2.2.1, h.2.2.2.2⟩

/-! ## C9: declare_outputs membership -/

theorem declFold_preserves (sid w : String) (ks : List String) :
    ∀ (m : Assoc OutputPublication) (k : String) (p : OutputPublication),
      findKey m k = some p →
      findKey (ks.foldl (declStep sid w) m) k = some p := by
  induction ks with
  | nil => intro m k p h; exact h
  | cons a ks ih =>
    intro m k p h
    simp only [List.foldl_cons]
    apply ih
    unfold declStep
    rcases hfa : findKey m a with _ | q
    · by_cases hak : a = k
      · subst hak
        rw [hfa] at h
        cases h
      · rw [findKey_setKey_ne _ _ _ _ hak]
        exact h
    · exact h

theorem declFold_adds (sid w : String) (ks : List String) :
    ∀ (m : Assoc OutputPublication) (k : String),
      findKey m k = none → k ∈ ks →
      findKey (ks.foldl (declStep sid w) m) k =
        some (outputPlaceholder sid k w) := by
  induction ks with
  | nil => intro m k _ hk; cases hk
  | cons a ks ih =>
    intro m k h hk
    simp only [List.foldl_cons]
    by_cases hak : a = k
    · subst hak
      have hstep : declStep sid w m a = setKey m a (outputPlaceholder sid a w) := by
        unfold declStep
        rw [h]
      rw [hstep]
      exact declFold_preserves sid w ks _ _ _ (findKey_setKey_self _ _ _)
    · have hk' : k ∈ ks := by
        rcases List.mem_cons.mp hk with h1 | h1
        · exact absurd h1.symm hak
        · exact h1
      apply ih
      · unfold declStep
        rcases hfa : findKey m a with _ | q
        · rw [findKey_setKey_ne _ _ _ _ hak]
          exact h
        · exact h
      · exact hk'

theorem declFold_other (sid w : String) (ks : List String) :
    ∀ (m : Assoc OutputPublication) (k : String), k ∉ ks →
      findKey (ks.foldl (declStep sid w) m) k = findKey m k := by
  induction ks with
  | nil => intro m k _; rfl
  | cons a ks ih =>
    intro m k hk
    have hak : a ≠ k := fun h => hk (h ▸ List.mem_cons_self a ks)
    have hk' : k ∉ ks := fun h => hk (List.mem_cons_of_mem a h)
    simp only [List.foldl_cons]
    rw [ih _ _ hk']
    unfold declStep
    rcases hfa : findKey m a with _ | q
    · exact findKey_setKey_ne _ _ _ _ hak
    · rfl

theorem declareOutputs_true_iff (st : Store) (sid w : String) (ks : List String) :
    (declareOutputs st sid w ks).1 = true ↔
      ∃ s, findKey st.sessions sid = some s ∧ w ∈ s.worker_ids := by
  constructor
  · intro h
    rcases hfs : findKey st.sessions sid with _ | s
    · simp only [declareOutputs, hfs] at h
      simp at h
    by_cases hw : w ∈ s.worker_ids
    · exact ⟨s, rfl, hw⟩
    · simp only [declareOutputs, hfs] at h
      simp [hw] at h
  · rintro ⟨s, hfs, hw⟩
    simp only [declareOutputs, hfs]
    simp [hw]

theorem declareOutputs_false_eq (st : Store) (sid w : String) (ks : List String)
    (h : (declareOutputs st sid w ks).1 = false) :
    (declareOutputs st sid w ks).2 = st := by
  rcases hfs : findKey st.sessions sid with _ | s
  · simp only [declareOutputs, hfs]
  by_cases hw : w ∈ s.worker_ids
  · simp only [declareOutputs, hfs] at h
    simp [hw] at h
  · simp only [declareOutputs, hfs]
    simp [hw]

theorem declareOutputs_success (st : Store) (sid w : String) (ks : List String)
    (s : Session) (hfs : findKey st.sessions sid = some s) (hw : w ∈ s.worker_ids) :
    (declareOutputs st sid w ks).1 = true ∧
    (declareOutputs st sid w ks).2.outputs =
      setKey st.outputs sid
        (ks.foldl (declStep sid w) ((findKey st.outputs sid).getD [])) := by
  simp only [declareOutputs, hfs]
  simp [hw]

/-- C9 counterexample: the claim says a session member — coordinator or
listed worker — may declare outputs, but `declareOutputs` only checks
`session.worker_ids.includes(workerId)`: the session's own coordinator
`boss` (not listed as a worker) is rejected. -/
theorem declareOutputs_rejects_coordinator :
    (findKey demoCreate.2.sessions "session_0").map Session.coordinator_id = some "boss" ∧
    ((findKey demoCreate.2.sessions "session_0").map Session.worker_ids) =
      some ["w1", "w2"] ∧
    (declareOutputs demoCreate.2 "session_0" "boss" ["k"]).1 = false ∧
    (declareOutputs demoCreate.2 "session_0" "boss" ["k"]).2 = demoCreate.2 := by
  refine ⟨by decide, by decide, by decide, ?_⟩
  exact declareOutputs_false_eq _ _ _ _ (by decide)

/-- C9 amended: `declare_outputs` succeeds iff the session exists and
the acting agent is one of the session's **listed workers** (the
coordinator, unless also listed as a worker, is rejected with the
membership failure); on failure the state is untouched; on success every
key not already tracked receives the placeholder (null data, version 0,
timestamp 0, producer = acting worker), every already-declared key keeps
its existing publication record unchanged, and keys not in the argument
list are untouched. -/
theorem declareOutputs_worker_membership
    (st : Store) (sid w : String) (ks : List String) :
    ((declareOutputs st sid w ks).1 = true ↔
      ∃ s, findKey st.sessions sid = some s ∧ w ∈ s.worker_ids) ∧
    ((declareOutputs st sid w ks).1 = false → (declareOutputs st sid w ks).2 = st) ∧
    (∀ s, findKey st.sessions sid = some s → w ∈ s.worker_ids →
      (∀ k p, findKey ((findKey st.outputs sid).getD []) k = some p →
        findKey ((findKey (declareOutputs st sid w ks).2.outputs sid).getD []) k = some p) ∧
      (∀ k, k ∈ ks → findKey ((findKey st.outputs sid).getD []) k = none →
        findKey ((findKey (declareOutputs st sid w ks).2.outputs sid).getD []) k =
          some (outputPlaceholder sid k w)) ∧
      (∀ k, k ∉ ks →
        findKey ((findKey (declareOutputs st sid w ks).2.outputs sid).getD []) k =
          findKey ((findKey st.outputs sid).getD []) k)) := by
  refine ⟨declareOutputs_true_iff st sid w ks, declareOutputs_false_eq st sid w ks, ?_⟩
  intro s hfs hw
  obtain ⟨-, houts⟩ := declareOutputs_success st sid w ks s hfs hw
  have hfound : (findKey (declareOutputs st sid w ks).2.outputs sid).getD [] =
      ks.foldl (declStep sid w) ((findKey st.outputs sid).getD []) := by
    rw [houts, findKey_setKey_self]
    rfl
  refine ⟨?_, ?_, ?_⟩
  · intro k p hp
    rw [hfound]
    exact declFold_preserves sid w ks _ _ _ hp
  · intro k hk hnone
    rw [hfound]
    exact declFold_adds sid w ks _ _ hnone hk
  · intro k hk
    rw [hfound]
    exact declFold_other sid w ks _ _ hk

/-- Witness for the amended C9 at a concrete input: listed worker `w1`
declares a fresh key `k` and the placeholder appears. -/
theorem declareOutputs_worker_membership_witness :
    (declareOutputs demoCreate.2 "session_0" "w1" ["k"]).1 = true ∧
    findKey ((findKey (declareOutputs demoCreate.2 "session_0" "w1" ["k"]).2.outputs
      "session_0").getD []) "k" = some (outputPlaceholder "session_0" "k" "w1") := by
  have h := (declareOutputs_worker_membership demoCreate.2 "session_0" "w1" ["k"]).2.2
    _ rfl (by decide)
  refine ⟨?_, h.2.1 "k" (by decide) (by decide)⟩
  exact (declareOutputs_worker_membership demoCreate.2 "session_0" "w1" ["k"]).1.mpr
    ⟨_, rfl, by decide⟩

/-! ## C5: publish_output semantics and broadcast wake -/

theorem publishOutput_declared_fst (st : Store) (sid k : String) (d : Dat) (now : Nat)
    (ex : OutputPublication)
    (hex : findKey ((findKey st.outputs sid).getD []) k = some ex) :
    (publishOutput st sid k d now).1 = true := by
  simp only [publishOutput, hex]
  rcases hres : findKey st.dependencyResolvers (sid ++ ":" ++ k) with _ | rs
  · simp [hres]
  · rcases rs with _ | ⟨r, rs'⟩ <;> simp [hres]

theorem publishOutput_declared_outputs (st : Store) (sid k : String) (d : Dat) (now : Nat)
    (ex : OutputPublication)
    (hex : findKey ((findKey st.outputs sid).getD []) k = some ex) :
    (publishOutput st sid k d now).2.1.outputs =
      setKey st.outputs sid
        (setKey ((findKey st.outputs sid).getD []) k (publishedUpdate ex d now)) := by
  simp only [publishOutput, hex, publishedUpdate]
  rcases hres : findKey st.dependencyResolvers (sid ++ ":" ++ k) with _ | rs
  · simp [hres]
  · rcases rs with _ | ⟨r, rs'⟩ <;> simp [hres]

theorem publishOutput_declared_events (st : Store) (sid k : String) (d : Dat) (now : Nat)
    (ex : OutputPublication)
    (hex : findKey ((findKey st.outputs sid).getD []) k = some ex) :
    (publishOutput st sid k d now).2.2 =
      ((findKey st.dependencyResolvers (sid ++ ":" ++ k)).getD []).map
        (fun wt => (wt.rid, d)) := by
  simp only [publishOutput, hex]
  rcases hres : findKey st.dependencyResolvers (sid ++ ":" ++ k) with _ | rs
  · simp [hres]
  · rcases rs with _ | ⟨r, rs'⟩ <;> simp [hres]

theorem publishOutput_declared_resolvers (st : Store) (sid k : String) (d : Dat) (now : Nat)
    (ex : OutputPublication)
    (hex : findKey ((findKey st.outputs sid).getD []) k = some ex)
    (hne : (findKey st.dependencyResolvers (sid ++ ":" ++ k)).getD [] ≠ []) :
    findKey (publishOutput st sid k d now).2.1.dependencyResolvers (sid ++ ":" ++ k) =
      none := by
  simp only [publishOutput, hex]
  rcases hres : findKey st.dependencyResolvers (sid ++ ":" ++ k) with _ | rs
  · rw [hres] at hne
    simp at hne
  · rcases rs with _ | ⟨r, rs'⟩
    · rw [hres] at hne
      simp at hne
    · simp only [hres]
      simp [findKey_delKey]

theorem not_mem_filter_out (l ids : List Nat) (x : Nat) (hx : x ∈ ids) :
    x ∉ l.filter (fun t => t ∉ ids) := by
  intro hmem
  have h2 := List.of_mem_filter hmem
  exact (of_decide_eq_true h2) hx

theorem publishOutput_declared_timers (st : Store) (sid k : String) (d : Dat) (now : Nat)
    (ex : OutputPublication)
    (hex : findKey ((findKey st.outputs sid).getD []) k = some ex) :
    ∀ wt ∈ (findKey st.dependencyResolvers (sid ++ ":" ++ k)).getD [],
      wt.timeoutId ∉ (publishOutput st sid k d now).2.1.activeTimers := by
  rcases hres : findKey st.dependencyResolvers (sid ++ ":" ++ k) with _ | rs
  · simp [hres]
  · rcases rs with _ | ⟨r, rs'⟩
    · simp [hres]
    · have htim : (publishOutput st sid k d now).2.1.activeTimers =
          st.activeTimers.filter
            (fun t => t ∉ ((r :: rs').map Waiter.timeoutId)) := by
        simp only [publishOutput, hex]
        simp [hres]
      intro wt hwt
      simp only [Option.getD_some] at hwt
      rw [htim]
      exact not_mem_filter_out _ _ _ (List.mem_map.mpr ⟨wt, hwt, rfl⟩)

/-- C5: `publish_output` returns false and leaves the whole engine state
unchanged (no events fired) exactly when the key was never declared for
the session; for a declared key it overwrites the stored data, bumps the
version by one, stamps the publication, resolves every registered waiter
for that session and key with the published data (broadcast), cancels
each of those waiters' timers, and removes the resolver entry. -/
theorem publishOutput_spec (st : Store) (sid k : String) (d : Dat) (now : Nat) :
    (findKey ((findKey st.outputs sid).getD []) k = none →
      publishOutput st sid k d now = (false, st, [])) ∧
    ((publishOutput st sid k d now).1 = false →
      findKey ((findKey st.outputs sid).getD []) k = none) ∧
    (∀ ex, findKey ((findKey st.outputs sid).getD []) k = some ex →
      (publishOutput st sid k d now).1 = true ∧
      findKey ((findKey (publishOutput st sid k d now).2.1.outputs sid).getD []) k =
        some (publishedUpdate ex d now) ∧
      (publishOutput st sid k d now).2.2 =
        ((findKey st.dependencyResolvers (sid ++ ":" ++ k)).getD []).map
          (fun wt => (wt.rid, d)) ∧
      (∀ wt ∈ (findKey st.dependencyResolvers (sid ++ ":" ++ k)).getD [],
        (wt.rid, d) ∈ (publishOutput st sid k d now).2.2 ∧
        wt.timeoutId ∉ (publishOutput st sid k d now).2.1.activeTimers) ∧
      (((findKey st.dependencyResolvers (sid ++ ":" ++ k)).getD []) ≠ [] →
        findKey (publishOutput st sid k d now).2.1.dependencyResolvers
          (sid ++ ":" ++ k) = none)) := by
  refine ⟨?_, ?_, ?_⟩
  · intro h
    simp only [publishOutput, h]
  · intro h
    rcases hex : findKey ((findKey st.outputs sid).getD []) k with _ | ex
    · rfl
    · rw [publishOutput_declared_fst st sid k d now ex hex] at h
      cases h
  · intro ex hex
    have hfst := publishOutput_declared_fst st sid k d now ex hex
    have houts := publishOutput_declared_outputs st sid k d now ex hex
    have hev := publishOutput_declared_events st sid k d now ex hex
    have htim := publishOutput_declared_timers st sid k d now ex hex
    refine ⟨hfst, ?_, hev, ?_, publishOutput_declared_resolvers st sid k d now ex hex⟩
    · rw [houts, findKey_setKey_self]
      exact findKey_setKey_self _ _ _
    · intro wt hwt
      refine ⟨?_, htim wt hwt⟩
      rw [hev]
      exact List.mem_map.mpr ⟨wt, hwt, rfl⟩

/-- Witness for C5 at a concrete input: a waiter (resolver id 4, timer
id 5) awaits the declared key `k`; publishing data resolves it with that
data, removes the resolver entry and cancels timer 5. -/
theorem publishOutput_spec_witness :
    (publishOutput demoStore4 "session_0" "k" (Dat.val "D") 6).1 = true ∧
    (publishOutput demoStore4 "session_0" "k" (Dat.val "D") 6).2.2 = [(4, Dat.val "D")] ∧
    findKey (publishOutput demoStore4 "session_0" "k" (Dat.val "D") 6).2.1.dependencyResolvers
      ("session_0" ++ ":" ++ "k") = none ∧
    (5 : Nat) ∉ (publishOutput demoStore4 "session_0" "k" (Dat.val "D") 6).2.1.activeTimers := by
  have h := (publishOutput_spec demoStore4 "session_0" "k" (Dat.val "D") 6).2.2 _ rfl
  refine ⟨h.1, ?_, h.2.2.2.2 (by decide), ?_⟩
  · rw [h.2.2.1]
    decide
  · have hw := h.2.2.2.1 ⟨4, 5⟩ (by decide)
    exact hw.2

/-! ## C8: publish-then-await round trip -/

/-- C8 counterexample: the claim quantifies over **every** data value,
but `awaitDependency` tests `output.data !== null`; after a successful
`publish_output` of the JS `null` payload on the declared key `k`, a
subsequent `await_dependency` does not return the stored value
immediately — it registers a waiter (resolver id 4, timer id 5) and can
later time out. -/
theorem awaitDependency_null_publish_registers :
    (publishOutput demoStore3 "session_0" "k" Dat.null 6).1 = true ∧
    (awaitDependency demoStore5 "session_0" "k" 100 7).1 = AwaitOutcome.waiting 4 ∧
    findKey (awaitDependency demoStore5 "session_0" "k" 100 7).2.dependencyResolvers
      ("session_0" ++ ":" ++ "k") = some [⟨4, 5⟩] := by
  refine ⟨by decide, by decide, by decide⟩

/-- C8 amended: for every **non-null** data value, after a successful
`publish_output(session, key, data)` — with no intervening operation —
any subsequent `await_dependency(session, key, timeout)` returns that
data immediately and leaves the state untouched: no waiter is
registered, no timer is started, and no timeout failure can occur. -/
theorem awaitDependency_after_publish
    (st : Store) (sid k : String) (d : Dat) (now now2 t : Nat)
    (hd : d ≠ Dat.null)
    (hpub : (publishOutput st sid k d now).1 = true) :
    awaitDependency (publishOutput st sid k d now).2.1 sid k t now2 =
      (AwaitOutcome.ready d, (publishOutput st sid k d now).2.1) := by
  rcases hex : findKey ((findKey st.outputs sid).getD []) k with _ | ex
  · have := (publishOutput_spec st sid k d now).1 hex
    rw [this] at hpub
    cases hpub
  · have hfind : findKey ((findKey (publishOutput st sid k d now).2.1.outputs sid).getD []) k =
        some (publishedUpdate ex d now) :=
      ((publishOutput_spec st sid k d now).2.2 ex hex).2.1
    rw [awaitDependency, hfind]
    simp [publishedUpdate, hd]

/-- Witness for the amended C8 at a concrete input: publishing `D` on
the declared key `k` makes an immediate `await_dependency` return `D`
with no state change. -/
theorem awaitDependency_after_publish_witness :
    awaitDependency (publishOutput demoStore3 "session_0" "k" (Dat.val "D") 6).2.1
      "session_0" "k" 100 7 =
      (AwaitOutcome.ready (Dat.val "D"),
        (publishOutput demoStore3 "session_0" "k" (Dat.val "D") 6).2.1) :=
  awaitDependency_after_publish demoStore3 "session_0" "k" (Dat.val "D") 6 7 100
    (by decide) (by decide)

/-! ## C3: TTL expiry on read and by the reaper -/

theorem cleanupSession_of_none (st : Store) (x : String)
    (hs : findKey st.sessions x = none) : cleanupSession st x = st := by
  simp only [cleanupSession, hs]

theorem cleanupSession_sessions_of_some (st : Store) (x : String) (s : Session)
    (hs : findKey st.sessions x = some s) :
    (cleanupSession st x).sessions = delKey st.sessions x := by
  simp only [cleanupSession, hs]
  split
  · rfl
  · split <;> rfl

theorem cleanupSession_find_self (st : Store) (x : String) :
    findKey (cleanupSession st x).sessions x = none := by
  rcases hs : findKey st.sessions x with _ | s
  · rw [cleanupSession_of_none st x hs]
    exact hs
  · rw [cleanupSession_sessions_of_some st x s hs, findKey_delKey]
    simp

theorem cleanupSession_preserves_none (st : Store) (x y : String)
    (h : findKey st.sessions y = none) :
    findKey (cleanupSession st x).sessions y = none := by
  rcases hs : findKey st.sessions x with _ | s
  · rw [cleanupSession_of_none st x hs]
    exact h
  · rw [cleanupSession_sessions_of_some st x s hs, findKey_delKey]
    split
    · rfl
    · exact h

theorem foldl_cleanup_none (L : List String) :
    ∀ (st : Store) (sid : String),
      (sid ∈ L ∨ findKey st.sessions sid = none) →
      findKey (L.foldl cleanupSession st).sessions sid = none := by
  induction L with
  | nil =>
    intro st sid h
    rcases h with h | h
    · cases h
    · exact h
  | cons x L ih =>
    intro st sid h
    simp only [List.foldl_cons]
    apply ih
    rcases h with h | h
    · rcases List.mem_cons.mp h with h1 | h1
      · subst h1
        exact Or.inr (cleanupSession_find_self st sid)
      · exact Or.inl h1
    · exact Or.inr (cleanupSession_preserves_none st x sid h)

theorem reaperSweep_removes (st : Store) (sid : String) (s : Session) (now : Nat)
    (hs : findKey st.sessions sid = some s)
    (hex : isExpired s now = true) :
    findKey (reaperSweep st now).sessions sid = none := by
  unfold reaperSweep
  apply foldl_cleanup_none
  left
  apply List.mem_map.mpr
  refine ⟨(sid, s), ?_, rfl⟩
  apply List.mem_filter.mpr
  exact ⟨findKey_mem hs, hex⟩

/-- C3 counterexample: a session created with `ttl = 0` is **not**
expired: `ttl: ttl || this.config.defaultTTL` replaces a zero ttl with
the 24h default, so `get_session` still returns the record and the
session still counts as active afterwards. -/
theorem createSession_ttl_zero_not_expired :
    (findKey (createSession (mkStore defaultConfig) "boss" ["w1"] ctx0 (some 0) 0).2.sessions
      "session_0").map Session.ttl = some 86400000 ∧
    ((getSession (createSession (mkStore defaultConfig) "boss" ["w1"] ctx0 (some 0) 0).2
      "session_0" 0).1).isSome = true ∧
    (getSessionStats (getSession (createSession (mkStore defaultConfig) "boss" ["w1"] ctx0
      (some 0) 0).2 "session_0" 0).2).active = 1 := by
  refine ⟨by decide, by decide, by decide⟩

/-- C3 amended: a session created with `ttl = 0` receives the default
TTL (`ttl || defaultTTL`) and is not immediately expired; for every
session actually past its stored TTL (`now − created_at > ttl` with the
stored ttl nonzero, i.e. `isExpired`), `get_session` returns null and
triggers the same teardown as the reaper (`cleanupSession`), after which
the session id is gone from the registry — it contributes zero to
`get_session_stats().active` after that read, and likewise after the
next reaper sweep. -/
theorem getSession_expired_teardown (st : Store) (sid : String) (s : Session) (now : Nat)
    (hs : findKey st.sessions sid = some s)
    (hex : isExpired s now = true) :
    getSession st sid now = (none, cleanupSession st sid) ∧
    findKey (cleanupSession st sid).sessions sid = none ∧
    (getSessionStats (cleanupSession st sid)).active = (delKey st.sessions sid).length ∧
    findKey (reaperSweep st now).sessions sid = none := by
  refine ⟨?_, cleanupSession_find_self st sid, ?_, reaperSweep_removes st sid s now hs hex⟩
  · simp only [getSession, hs, hex]
    simp
  · simp only [getSessionStats]
    rw [cleanupSession_sessions_of_some st sid s hs]

/-- Witness for the amended C3 at a concrete input: a session with
ttl 10 read at time 11 is torn down and absent from the registry and
from the next sweep. -/
theorem getSession_expired_teardown_witness :
    getSession (createSession (mkStore defaultConfig) "boss" ["w1"] ctx0 (some 10) 0).2
      "session_0" 11 =
      (none, cleanupSession (createSession (mkStore defaultConfig) "boss" ["w1"] ctx0
        (some 10) 0).2 "session_0") ∧
    findKey (reaperSweep (createSession (mkStore defaultConfig) "boss" ["w1"] ctx0
      (some 10) 0).2 11).sessions "session_0" = none := by
  have h := getSession_expired_teardown
    (createSession (mkStore defaultConfig) "boss" ["w1"] ctx0 (some 10) 0).2
    "session_0" _ 11 rfl (by decide)
  exact ⟨h.1, h.2.2.2⟩

/-! ## C6: teardown releases the context blob by reference count -/

theorem cleanupSession_refcount_pos (st : Store) (sid : String) (s : Session)
    (refs : List String)
    (hs : findKey st.sessions sid = some s)
    (hr : findKey st.contextRefCount s.shared_context.full_context_key = some refs)
    (hne : refs.erase sid ≠ []) :
    (cleanupSession st sid).contextRefCount =
      setKey st.contextRefCount s.shared_context.full_context_key (refs.erase sid) := by
  have hlen : ¬ ((refs.erase sid).length = 0) := by
    simpa [List.length_eq_zero] using hne
  simp only [cleanupSession, hs]
  simp [hr, hlen]

theorem cleanupSession_ctx_fields_zero (st : Store) (sid : String) (s : Session)
    (refs : List String)
    (hs : findKey st.sessions sid = some s)
    (hr : findKey st.contextRefCount s.shared_context.full_context_key = some refs)
    (hz : refs.erase sid = []) :
    (cleanupSession st sid).contextRefCount =
      delKey st.contextRefCount s.shared_context.full_context_key ∧
    (cleanupSession st sid).contexts =
      delKey st.contexts s.shared_context.full_context_key ∧
    (cleanupSession st sid).contextRefs =
      delKey st.contextRefs s.shared_context.ref_id := by
  simp only [cleanupSession, hs]
  simp [hr, hz]

/-- C6: tearing a session down removes its session id from the context
blob's reference set; when that set becomes empty the blob, its
reference-count entry and its context-reference record are all deleted,
so a subsequent `expand_context_section` against the session's former
reference id returns not-found for every section name — the blob is
unreachable once unreferenced. -/
theorem cleanupSession_releases_context
    (st : Store) (sid : String) (s : Session) (refs : List String)
    (hs : findKey st.sessions sid = some s)
    (hr : findKey st.contextRefCount s.shared_context.full_context_key = some refs) :
    (refs.erase sid ≠ [] →
      findKey (cleanupSession st sid).contextRefCount s.shared_context.full_context_key =
        some (refs.erase sid)) ∧
    (refs.erase sid = [] →
      findKey (cleanupSession st sid).contextRefCount s.shared_context.full_context_key
        = none ∧
      findKey (cleanupSession st sid).contexts s.shared_context.full_context_key = none ∧
      findKey (cleanupSession st sid).contextRefs s.shared_context.ref_id = none ∧
      ∀ sec, expandContextSection (cleanupSession st sid) s.shared_context.ref_id sec
        = none) := by
  constructor
  · intro hne
    rw [cleanupSession_refcount_pos st sid s refs hs hr hne]
    exact findKey_setKey_self _ _ _
  · intro hz
    obtain ⟨h1, h2, h3⟩ := cleanupSession_ctx_fields_zero st sid s refs hs hr hz
    have hrc : findKey (cleanupSession st sid).contextRefCount
        s.shared_context.full_context_key = none := by
      rw [h1, findKey_delKey]
      simp
    have hctx : findKey (cleanupSession st sid).contexts
        s.shared_context.full_context_key = none := by
      rw [h2, findKey_delKey]
      simp
    have hcr : findKey (cleanupSession st sid).contextRefs s.shared_context.ref_id
        = none := by
      rw [h3, findKey_delKey]
      simp
    refine ⟨hrc, hctx, hcr, ?_⟩
    intro sec
    simp only [expandContextSection, getFullContext, hcr]

/-- Witness for C6 at a concrete input: tearing down the demo session
(sole holder of blob `context_1` through reference `ref_3`) deletes the
blob and makes every `expand_context_section` read return not-found. -/
theorem cleanupSession_releases_context_witness :
    findKey (cleanupSession demoCreate.2 "session_0").contexts "context_1" = none ∧
    expandContextSection (cleanupSession demoCreate.2 "session_0") "ref_3"
      "requirements" = none := by
  have h := (cleanupSession_releases_context demoCreate.2 "session_0" _ _ rfl rfl).2
    (by decide)
  exact ⟨h.2.1, h.2.2.2 "requirements"⟩

/-! ## C1: cycle detection — basic lemmas -/

theorem visitNode_zero (g : Assoc (List String)) (u : String) (visited stack : List String) :
    visitNode g 0 u visited stack = (true, visited) := rfl

theorem visitNode_succ (g : Assoc (List String)) (fuel : Nat) (u : String)
    (visited stack : List String) :
    visitNode g (fuel + 1) u visited stack =
      (succs g u).foldl (visitStep g fuel (u :: stack)) (false, u :: visited) := rfl

theorem key_of_succ {g : Assoc (List String)} {x y : String} (h : y ∈ succs g x) :
    x ∈ g.map Prod.fst := by
  unfold succs at h
  rcases hf : findKey g x with _ | deps
  · rw [hf] at h
    cases h
  · exact List.mem_map.mpr ⟨(x, deps), findKey_mem hf, rfl⟩

theorem succs_subset_nodesD {g : Assoc (List String)} {x y : String}
    (h : y ∈ succs g x) : y ∈ nodesD g := by
  unfold succs at h
  rcases hf : findKey g x with _ | deps
  · rw [hf] at h
    cases h
  · rw [hf] at h
    simp only [Option.getD_some] at h
    apply List.mem_dedup.mpr
    apply List.mem_append.mpr
    right
    exact List.mem_flatMap.mpr ⟨(x, deps), findKey_mem hf, h⟩

theorem keys_subset_nodesD {g : Assoc (List String)} {x : String}
    (h : x ∈ g.map Prod.fst) : x ∈ nodesD g := by
  apply List.mem_dedup.mpr
  exact List.mem_append.mpr (Or.inl h)

/-- Count of graph nodes not yet visited; the DFS recursion depth is
bounded by it. -/
def missCount (g : Assoc (List String)) (visited : List String) : Nat :=
  ((nodesD g).filter (fun x => x ∉ visited)).length

theorem length_filter_mono_pred {α : Type} (l : List α) (p q : α → Bool)
    (h : ∀ x ∈ l, p x = true → q x = true) :
    (l.filter p).length ≤ (l.filter q).length := by
  induction l with
  | nil => simp
  | cons a t ih =>
    have ht : ∀ x ∈ t, p x = true → q x = true := fun x hx => h x (List.mem_cons_of_mem a hx)
    rcases hp : p a with _ | _
    · rcases hq : q a with _ | _
      · simp only [List.filter_cons, hp, hq]
        exact ih ht
      · simp only [List.filter_cons, hp, hq]
        exact le_trans (ih ht) (Nat.le_succ _)
    · have hq : q a = true := h a (List.mem_cons_self a t) hp
      simp only [List.filter_cons, hp, hq, List.length_cons]
      exact Nat.succ_le_succ (ih ht)

theorem missCount_anti {g : Assoc (List String)} {v v' : List String}
    (h : ∀ x ∈ v, x ∈ v') : missCount g v' ≤ missCount g v := by
  apply length_filter_mono_pred
  intro x _ hx
  rcases hm : decide (x ∈ v) with _ | _
  · simp
    intro hxv
    exact absurd (h x hxv) (by simpa using hx)
  · simp at hx hm
    exact absurd (h x hm) (by simpa using hx)

theorem filter_notin_cons_lt {x : String} {visited : List String}
    (l : List String) (hnd : l.Nodup) (hxl : x ∈ l) (hxv : x ∉ visited) :
    (l.filter (fun y => y ∉ x :: visited)).length <
      (l.filter (fun y => y ∉ visited)).length := by
  induction l with
  | nil => cases hxl
  | cons a t ih =>
    rcases List.nodup_cons.mp hnd with ⟨hat, hndt⟩
    by_cases hax : a = x
    · subst hax
      have h1 : (t.filter (fun y => y ∉ a :: visited)).length =
          (t.filter (fun y => y ∉ visited)).length := by
        congr 1
        apply List.filter_congr
        intro y hy
        have hya : y ≠ a := fun h => hat (h ▸ hy)
        simp [List.mem_cons, hya]
      rw [List.filter_cons_of_neg (by simp), List.filter_cons_of_pos (by simpa using hxv)]
      rw [h1, List.length_cons]
      exact Nat.lt_succ_self _
    · have hxt : x ∈ t := by
        rcases List.mem_cons.mp hxl with h | h
        · exact absurd h.symm hax
        · exact h
      have hlt := ih hndt hxt
      by_cases hav : a ∈ visited
      · rw [List.filter_cons_of_neg (by simp [hav]), List.filter_cons_of_neg (by simp [hav])]
        exact hlt
      · have hp1 : a ∉ x :: visited := by
          simp [List.mem_cons, hax, hav]
        rw [List.filter_cons_of_pos (by simpa using hp1),
          List.filter_cons_of_pos (by simpa using hav)]
        simp only [List.length_cons]
        exact Nat.succ_lt_succ hlt

theorem missCount_cons_lt {g : Assoc (List String)} {x : String} {visited : List String}
    (hx : x ∈ nodesD g) (hnx : x ∉ visited) :
    missCount g (x :: visited) < missCount g visited :=
  filter_notin_cons_lt (nodesD g) (List.nodup_dedup _) hx hnx

/-- A `true` accumulator flag absorbs the rest of the dependency loop. -/
theorem foldSteps_of_true (g : Assoc (List String)) (fuel : Nat) (stack : List String)
    (deps : List String) (acc : Bool × List String) (h : acc.1 = true) :
    deps.foldl (visitStep g fuel stack) acc = acc := by
  induction deps with
  | nil => rfl
  | cons d ds ih =>
    simp only [List.foldl_cons]
    have : visitStep g fuel stack acc d = acc := by
      unfold visitStep
      rw [h]
      simp
    rw [this]
    exact ih

theorem foldSteps_mono (g : Assoc (List String)) (fuel : Nat)
    (hN : ∀ u visited stack x, x ∈ visited → x ∈ (visitNode g fuel u visited stack).2) :
    ∀ (deps : List String) (stack : List String) (acc : Bool × List String) (x : String),
      x ∈ acc.2 → x ∈ (deps.foldl (visitStep g fuel stack) acc).2 := by
  intro deps
  induction deps with
  | nil => intro stack acc x hx; exact hx
  | cons d ds ih =>
    intro stack acc x hx
    simp only [List.foldl_cons]
    apply ih
    unfold visitStep
    rcases h1 : acc.1 with _ | _
    · simp only [Bool.false_eq_true, if_false]
      by_cases h2 : d ∈ acc.2
      · simp only [h2, if_true]
        split <;> exact hx
      · simp only [h2, if_false]
        exact hN d acc.2 stack x hx
    · simp only [if_true]
      exact hx

theorem visitNode_mono (g : Assoc (List String)) :
    ∀ (fuel : Nat) (u : String) (visited stack : List String) (x : String),
      x ∈ visited → x ∈ (visitNode g fuel u visited stack).2 := by
  intro fuel
  induction fuel with
  | zero => intro u visited stack x hx; exact hx
  | succ fuel ih =>
    intro u visited stack x hx
    rw [visitNode_succ]
    exact foldSteps_mono g fuel ih (succs g u) (u :: stack) (false, u :: visited) x
      (List.mem_cons_of_mem u hx)

/-! ## C1: soundness of the DFS (a `true` answer exhibits a cycle) -/

/-- Relation along the recursion stack: the element pushed later is a
successor of the one below it. -/
def stackRel (g : Assoc (List String)) (a b : String) : Prop :=
  a ∈ succs g b

theorem chain_to_head {g : Assoc (List String)} :
    ∀ (h : String) (t : List String), List.Chain' (stackRel g) (h :: t) →
      ∀ d ∈ h :: t, Relation.ReflTransGen (edgeRel g) d h := by
  intro h t
  induction t generalizing h with
  | nil =>
    intro _ d hd
    rcases List.mem_cons.mp hd with h1 | h1
    · subst h1
      exact Relation.ReflTransGen.refl
    · cases h1
  | cons b t ih =>
    intro hch d hd
    rcases List.chain'_cons.mp hch with ⟨hhb, hcht⟩
    rcases List.mem_cons.mp hd with h1 | h1
    · subst h1
      exact Relation.ReflTransGen.refl
    · have hdb := ih b hcht d h1
      exact Relation.ReflTransGen.tail hdb hhb

theorem foldSteps_sound (g : Assoc (List String)) (fuel : Nat)
    (hN : ∀ u visited stack, u ∉ visited → fuel ≥ missCount g (u :: visited) + 1 →
      u ∈ nodesD g → List.Chain' (stackRel g) (u :: stack) →
      (visitNode g fuel u visited stack).1 = true → HasCycle g) :
    ∀ (deps : List String) (u : String) (stack : List String) (acc : Bool × List String),
      (∀ d ∈ deps, d ∈ succs g u) →
      List.Chain' (stackRel g) (u :: stack) →
      fuel ≥ missCount g acc.2 →
      (acc.1 = true → HasCycle g) →
      (deps.foldl (visitStep g fuel (u :: stack)) acc).1 = true → HasCycle g := by
  intro deps
  induction deps with
  | nil =>
    intro u stack acc _ _ _ hacc h
    exact hacc h
  | cons d ds ih =>
    intro u stack acc hdeps hch hfuel hacc h
    simp only [List.foldl_cons] at h
    have hdsu : ∀ e ∈ ds, e ∈ succs g u := fun e he => hdeps e (List.mem_cons_of_mem d he)
    have hdu : d ∈ succs g u := hdeps d (List.mem_cons_self d ds)
    rcases h1 : acc.1 with _ | _
    · by_cases h2 : d ∈ acc.2
      · by_cases h3 : d ∈ u :: stack
        · -- back edge into the recursion stack: close the cycle through u
          have hpath : Relation.ReflTransGen (edgeRel g) d u := chain_to_head u stack hch d h3
          have hstep : edgeRel g u d := hdu
          exact ⟨d, Relation.TransGen.tail' hpath hstep⟩
        · have hstep : visitStep g fuel (u :: stack) acc d = acc := by
            unfold visitStep
            rw [h1]
            simp [h2, h3]
          rw [hstep] at h
          exact ih u stack acc hdsu hch hfuel hacc h
      · have hstep : visitStep g fuel (u :: stack) acc d =
            visitNode g fuel d acc.2 (u :: stack) := by
          unfold visitStep
          rw [h1]
          simp [h2]
        rw [hstep] at h
        have hdn : d ∈ nodesD g := succs_subset_nodesD hdu
        have hfuel2 : fuel ≥ missCount g (d :: acc.2) + 1 := by
          have := missCount_cons_lt (g := g) hdn h2
          omega
        have hch2 : List.Chain' (stackRel g) (d :: u :: stack) :=
          List.chain'_cons.mpr ⟨hdu, hch⟩
        rcases hv : visitNode g fuel d acc.2 (u :: stack) with ⟨b, v⟩
        rcases b with _ | _
        · -- recursion returned false: continue the loop on the grown visited set
          have hsub : ∀ x ∈ acc.2, x ∈ v := by
            intro x hx
            have := visitNode_mono g fuel d acc.2 (u :: stack) x hx
            rw [hv] at this
            exact this
          have hfuel3 : fuel ≥ missCount g v := le_trans (missCount_anti hsub) hfuel
          rw [hv] at h
          exact ih u stack (false, v) hdsu hch hfuel3 (by intro hh; cases hh) h
        · -- recursion returned true: a cycle was found below
          have : (visitNode g fuel d acc.2 (u :: stack)).1 = true := by
            rw [hv]
          exact hN d acc.2 (u :: stack) h2 hfuel2 hdn hch2 this
    · exact hacc h1

theorem visitNode_sound (g : Assoc (List String)) :
    ∀ (fuel : Nat) (u : String) (visited stack : List String),
      u ∉ visited → fuel ≥ missCount g (u :: visited) + 1 →
      u ∈ nodesD g → List.Chain' (stackRel g) (u :: stack) →
      (visitNode g fuel u visited stack).1 = true → HasCycle g := by
  intro fuel
  induction fuel with
  | zero =>
    intro u visited stack _ hfuel _ _ _
    omega
  | succ fuel ih =>
    intro u visited stack hu hfuel hun hch h
    rw [visitNode_succ] at h
    refine foldSteps_sound g fuel ih (succs g u) u stack (false, u :: visited)
      (fun d hd => hd) hch ?_ (by intro hh; cases hh) h
    show fuel ≥ missCount g (u :: visited)
    omega

theorem scanUnits_sound (g : Assoc (List String)) (fuel : Nat) :
    ∀ (units : List WorkUnit) (visited : List String),
      (∀ u ∈ units, u.unit_id ∈ nodesD g) →
      fuel ≥ missCount g visited →
      scanUnits g fuel units visited = true → HasCycle g := by
  intro units
  induction units with
  | nil =>
    intro visited _ _ h
    cases h
  | cons u us ih =>
    intro visited hids hfuel h
    have hidu : u.unit_id ∈ nodesD g := hids u (List.mem_cons_self u us)
    have hidus : ∀ w ∈ us, w.unit_id ∈ nodesD g :=
      fun w hw => hids w (List.mem_cons_of_mem u hw)
    unfold scanUnits at h
    by_cases hv : u.unit_id ∈ visited
    · simp only [hv, if_true] at h
      exact ih visited hidus hfuel h
    · simp only [hv, if_false] at h
      rcases hvis : visitNode g fuel u.unit_id visited [] with ⟨b, v⟩
      rcases b with _ | _
      · rw [hvis] at h
        have hsub : ∀ x ∈ visited, x ∈ v := by
          intro x hx
          have := visitNode_mono g fuel u.unit_id visited [] x hx
          rw [hvis] at this
          exact this
        exact ih v hidus (le_trans (missCount_anti hsub) hfuel) h
      · have hfuel2 : fuel ≥ missCount g (u.unit_id :: visited) + 1 := by
          have := missCount_cons_lt (g := g) hidu hv
          omega
        have : (visitNode g fuel u.unit_id visited []).1 = true := by
          rw [hvis]
        exact visitNode_sound g fuel u.unit_id visited [] hv hfuel2 hidu
          (List.chain'_singleton _) this

theorem mem_keys_setKey_self {α : Type} (m : Assoc α) (k : String) (v : α) :
    k ∈ (setKey m k v).map Prod.fst := by
  induction m with
  | nil => simp [setKey]
  | cons p rest ih =>
    obtain ⟨k', v'⟩ := p
    by_cases h : k' = k
    · simp [setKey, h]
    · simp only [setKey, h, if_false, List.map_cons, List.mem_cons]
      exact Or.inr ih

theorem mem_keys_setKey_of {α : Type} (m : Assoc α) (k k' : String) (v : α)
    (h : k' ∈ m.map Prod.fst) : k' ∈ (setKey m k v).map Prod.fst := by
  induction m with
  | nil => cases h
  | cons p rest ih =>
    obtain ⟨a, b⟩ := p
    by_cases hak : a = k
    · subst hak
      simp only [List.map_cons, List.mem_cons] at h
      have hset : setKey ((a, b) :: rest) a v = (a, v) :: rest := by
        simp [setKey]
      rw [hset]
      simp only [List.map_cons, List.mem_cons]
      exact h
    · simp only [List.map_cons, List.mem_cons] at h
      simp only [setKey, hak, if_false, List.map_cons, List.mem_cons]
      rcases h with h | h
      · exact Or.inl h
      · exact Or.inr (ih h)

theorem mem_keys_buildGraph_aux :
    ∀ (l : List WorkUnit) (m : Assoc (List String)) (x : String),
      ((∃ w ∈ l, w.unit_id = x) ∨ x ∈ m.map Prod.fst) →
      x ∈ (l.foldl (fun g u => setKey g u.unit_id u.dependencies) m).map Prod.fst := by
  intro l
  induction l with
  | nil =>
    intro m x h
    rcases h with ⟨w, hw, _⟩ | h
    · cases hw
    · exact h
  | cons w ws ih =>
    intro m x h
    simp only [List.foldl_cons]
    apply ih
    rcases h with ⟨w', hw', hx⟩ | h
    · rcases List.mem_cons.mp hw' with h1 | h1
      · subst h1
        subst hx
        exact Or.inr (mem_keys_setKey_self m w'.unit_id w'.dependencies)
      · exact Or.inl ⟨w', h1, hx⟩
    · exact Or.inr (mem_keys_setKey_of m w.unit_id x w.dependencies h)

theorem mem_keys_buildGraph {units : List WorkUnit} {u : WorkUnit} (hu : u ∈ units) :
    u.unit_id ∈ (buildGraph units).map Prod.fst :=
  mem_keys_buildGraph_aux units [] u.unit_id (Or.inl ⟨u, hu, rfl⟩)

theorem missCount_nil (g : Assoc (List String)) :
    missCount g [] = (nodesD g).length := by
  unfold missCount
  congr 1
  apply List.filter_eq_self.mpr
  intro x _
  simp

theorem hasCircularDependencies_sound (units : List WorkUnit)
    (h : hasCircularDependencies units = true) : HasCycle (buildGraph units) := by
  unfold hasCircularDependencies at h
  apply scanUnits_sound (buildGraph units) ((nodesD (buildGraph units)).length + 1)
    units [] ?_ ?_ h
  · intro u hu
    exact keys_subset_nodesD (mem_keys_buildGraph hu)
  · rw [missCount_nil]
    omega

/-! ## C1: completeness of the DFS (a `false` answer excludes cycles) -/

/-- Finished ("black") nodes — visited and off the recursion stack —
have all successors finished. -/
def BlackInv (g : Assoc (List String)) (V S : List String) : Prop :=
  ∀ b ∈ V, b ∉ S → ∀ y ∈ succs g b, y ∈ V ∧ y ∉ S

/-- No finished node lies on a cycle. -/
def NoBlackCyc (g : Assoc (List String)) (V S : List String) : Prop :=
  ∀ b ∈ V, b ∉ S → ¬ Relation.TransGen (edgeRel g) b b

theorem black_reach {g : Assoc (List String)} {V S : List String}
    (hB : BlackInv g V S) :
    ∀ a, a ∈ V → a ∉ S → ∀ x, Relation.ReflTransGen (edgeRel g) a x →
      x ∈ V ∧ x ∉ S := by
  intro a ha haS x hr
  induction hr with
  | refl => exact ⟨ha, haS⟩
  | tail _ step ih => exact hB _ ih.1 ih.2 _ step

theorem foldSteps_complete (g : Assoc (List String)) (fuel : Nat)
    (hN : ∀ u visited stack v', visitNode g fuel u visited stack = (false, v') →
      (∀ x ∈ stack, x ∈ visited) → u ∉ visited →
      BlackInv g visited stack → NoBlackCyc g visited stack →
      (∀ x ∈ visited, x ∈ v') ∧ u ∈ v' ∧ BlackInv g v' stack ∧ NoBlackCyc g v' stack) :
    ∀ (deps : List String) (stack : List String) (acc : Bool × List String)
      (v' : List String),
      deps.foldl (visitStep g fuel stack) acc = (false, v') →
      acc.1 = false →
      (∀ x ∈ stack, x ∈ acc.2) →
      BlackInv g acc.2 stack → NoBlackCyc g acc.2 stack →
      (∀ x ∈ acc.2, x ∈ v') ∧ BlackInv g v' stack ∧ NoBlackCyc g v' stack ∧
        ∀ d ∈ deps, d ∈ v' ∧ d ∉ stack := by
  intro deps
  induction deps with
  | nil =>
    intro stack acc v' h hacc hst hB hC
    rcases acc with ⟨b, vv⟩
    simp only [List.foldl_nil] at h
    injection h with h1 h2
    subst h2
    exact ⟨fun x hx => hx, hB, hC, by simp⟩
  | cons d ds ih =>
    intro stack acc v' h hacc hst hB hC
    rcases acc with ⟨b, vv⟩
    simp only at hacc
    subst hacc
    simp only [List.foldl_cons] at h
    by_cases h2 : d ∈ vv
    · by_cases h3 : d ∈ stack
      · have hstep : visitStep g fuel stack (false, vv) d = (true, vv) := by
          unfold visitStep
          simp [h2, h3]
        rw [hstep, foldSteps_of_true g fuel stack ds (true, vv) rfl] at h
        simp at h
      · have hstep : visitStep g fuel stack (false, vv) d = (false, vv) := by
          unfold visitStep
          simp [h2, h3]
        rw [hstep] at h
        obtain ⟨hsub, hBv, hCv, hds⟩ := ih stack (false, vv) v' h rfl hst hB hC
        refine ⟨hsub, hBv, hCv, ?_⟩
        intro e he
        rcases List.mem_cons.mp he with he1 | he1
        · subst he1
          exact ⟨hsub _ h2, h3⟩
        · exact hds e he1
    · have hstep : visitStep g fuel stack (false, vv) d =
          visitNode g fuel d vv stack := by
        unfold visitStep
        simp [h2]
      rw [hstep] at h
      rcases hv : visitNode g fuel d vv stack with ⟨bb, v2⟩
      rcases bb with _ | _
      · rw [hv] at h
        obtain ⟨hsub1, hdv2, hBv2, hCv2⟩ := hN d vv stack v2 hv hst h2 hB hC
        have hst2 : ∀ x ∈ stack, x ∈ v2 := fun x hx => hsub1 x (hst x hx)
        obtain ⟨hsub2, hBv, hCv, hds⟩ := ih stack (false, v2) v' h rfl hst2 hBv2 hCv2
        have hdstack : d ∉ stack := fun hd => h2 (hst d hd)
        refine ⟨fun x hx => hsub2 x (hsub1 x hx), hBv, hCv, ?_⟩
        intro e he
        rcases List.mem_cons.mp he with he1 | he1
        · subst he1
          exact ⟨hsub2 _ hdv2, hdstack⟩
        · exact hds e he1
      · rw [hv, foldSteps_of_true g fuel stack ds (true, v2) rfl] at h
        simp at h

theorem visitNode_complete (g : Assoc (List String)) :
    ∀ (fuel : Nat) (u : String) (visited stack v' : List String),
      visitNode g fuel u visited stack = (false, v') →
      (∀ x ∈ stack, x ∈ visited) → u ∉ visited →
      BlackInv g visited stack → NoBlackCyc g visited stack →
      (∀ x ∈ visited, x ∈ v') ∧ u ∈ v' ∧ BlackInv g v' stack ∧
        NoBlackCyc g v' stack := by
  intro fuel
  induction fuel with
  | zero =>
    intro u visited stack v' h
    rw [visitNode_zero] at h
    simp at h
  | succ fuel ih =>
    intro u visited stack v' h hst hu hB hC
    rw [visitNode_succ] at h
    have hst' : ∀ x ∈ u :: stack, x ∈ u :: visited := by
      intro x hx
      rcases List.mem_cons.mp hx with h1 | h1
      · subst h1
        exact List.mem_cons_self _ _
      · exact List.mem_cons_of_mem _ (hst x h1)
    have hB' : BlackInv g (u :: visited) (u :: stack) := by
      intro b hb hbs y hy
      have hbu : b ≠ u := fun he => hbs (he ▸ List.mem_cons_self u stack)
      have hbv : b ∈ visited := by
        rcases List.mem_cons.mp hb with h1 | h1
        · exact absurd h1 hbu
        · exact h1
      have hbs0 : b ∉ stack := fun hbm => hbs (List.mem_cons_of_mem u hbm)
      obtain ⟨hyv, hys⟩ := hB b hbv hbs0 y hy
      have hyu : y ≠ u := fun he => hu (he ▸ hyv)
      refine ⟨List.mem_cons_of_mem u hyv, ?_⟩
      intro hym
      rcases List.mem_cons.mp hym with h1 | h1
      · exact hyu h1
      · exact hys h1
    have hC' : NoBlackCyc g (u :: visited) (u :: stack) := by
      intro b hb hbs
      have hbu : b ≠ u := fun he => hbs (he ▸ List.mem_cons_self u stack)
      have hbv : b ∈ visited := by
        rcases List.mem_cons.mp hb with h1 | h1
        · exact absurd h1 hbu
        · exact h1
      exact hC b hbv (fun hbm => hbs (List.mem_cons_of_mem u hbm))
    obtain ⟨hsub, hBv, hCv, hdeps⟩ := foldSteps_complete g fuel ih (succs g u)
      (u :: stack) (false, u :: visited) v' h rfl hst' hB' hC'
    have huv : u ∈ v' := hsub u (List.mem_cons_self u visited)
    have hsubv : ∀ x ∈ visited, x ∈ v' := fun x hx => hsub x (List.mem_cons_of_mem u hx)
    have hBfinal : BlackInv g v' stack := by
      intro b hb hbs y hy
      by_cases hbu : b = u
      · subst hbu
        obtain ⟨hyv, hyus⟩ := hdeps y hy
        exact ⟨hyv, fun hys => hyus (List.mem_cons_of_mem b hys)⟩
      · have hbs' : b ∉ u :: stack := by
          intro hbm
          rcases List.mem_cons.mp hbm with h1 | h1
          · exact hbu h1
          · exact hbs h1
        obtain ⟨hyv, hys'⟩ := hBv b hb hbs' y hy
        exact ⟨hyv, fun hys => hys' (List.mem_cons_of_mem u hys)⟩
    have hCfinal : NoBlackCyc g v' stack := by
      intro b hb hbs htg
      by_cases hbu : b = u
      · subst hbu
        rcases Relation.TransGen.head'_iff.mp htg with ⟨c, hbc, hcb⟩
        obtain ⟨hcv, hcs⟩ := hdeps c hbc
        obtain ⟨hbv2, hbs2⟩ := black_reach hBv c hcv hcs b hcb
        exact hbs2 (List.mem_cons_self b stack)
      · have hbs' : b ∉ u :: stack := by
          intro hbm
          rcases List.mem_cons.mp hbm with h1 | h1
          · exact hbu h1
          · exact hbs h1
        exact hCv b hb hbs' htg
    exact ⟨hsubv, huv, hBfinal, hCfinal⟩

theorem scanUnits_complete (g : Assoc (List String)) (fuel : Nat) :
    ∀ (units : List WorkUnit) (visited : List String),
      scanUnits g fuel units visited = false →
      BlackInv g visited [] → NoBlackCyc g visited [] →
      ∃ V, (∀ x ∈ visited, x ∈ V) ∧ BlackInv g V [] ∧ NoBlackCyc g V [] ∧
        ∀ u ∈ units, u.unit_id ∈ V := by
  intro units
  induction units with
  | nil =>
    intro visited _ hB hC
    exact ⟨visited, fun x hx => hx, hB, hC, by simp⟩
  | cons u us ih =>
    intro visited h hB hC
    unfold scanUnits at h
    by_cases hv : u.unit_id ∈ visited
    · simp only [hv, if_true] at h
      obtain ⟨V, hsub, hBV, hCV, hall⟩ := ih visited h hB hC
      refine ⟨V, hsub, hBV, hCV, ?_⟩
      intro w hw
      rcases List.mem_cons.mp hw with h1 | h1
      · subst h1
        exact hsub _ hv
      · exact hall w h1
    · simp only [hv, if_false] at h
      rcases hvis : visitNode g fuel u.unit_id visited [] with ⟨b, v2⟩
      rcases b with _ | _
      · rw [hvis] at h
        obtain ⟨hsub1, huv, hBV, hCV⟩ := visitNode_complete g fuel u.unit_id visited [] v2
          hvis (by intro x hx; cases hx) hv hB hC
        obtain ⟨V, hsub2, hBV2, hCV2, hall⟩ := ih v2 h hBV hCV
        refine ⟨V, fun x hx => hsub2 x (hsub1 x hx), hBV2, hCV2, ?_⟩
        intro w hw
        rcases List.mem_cons.mp hw with h1 | h1
        · subst h1
          exact hsub2 _ huv
        · exact hall w h1
      · rw [hvis] at h
        simp at h

theorem keys_setKey_sub {α : Type} (m : Assoc α) (k x : String) (v : α)
    (h : x ∈ (setKey m k v).map Prod.fst) : x = k ∨ x ∈ m.map Prod.fst := by
  induction m with
  | nil =>
    simp [setKey] at h
    exact Or.inl h
  | cons p rest ih =>
    obtain ⟨a, b⟩ := p
    by_cases hak : a = k
    · subst hak
      have hset : setKey ((a, b) :: rest) a v = (a, v) :: rest := by
        simp [setKey]
      rw [hset] at h
      simp only [List.map_cons, List.mem_cons] at h
      rcases h with h | h
      · exact Or.inl h
      · exact Or.inr (List.mem_cons_of_mem _ h)
    · simp only [setKey, hak, if_false, List.map_cons, List.mem_cons] at h
      rcases h with h | h
      · exact Or.inr (by simp [h])
      · rcases ih h with h1 | h1
        · exact Or.inl h1
        · exact Or.inr (List.mem_cons_of_mem _ h1)

theorem keys_buildGraph_sub_aux :
    ∀ (l : List WorkUnit) (m : Assoc (List String)) (x : String),
      x ∈ (l.foldl (fun g u => setKey g u.unit_id u.dependencies) m).map Prod.fst →
      (∃ u ∈ l, u.unit_id = x) ∨ x ∈ m.map Prod.fst := by
  intro l
  induction l with
  | nil =>
    intro m x h
    exact Or.inr h
  | cons w ws ih =>
    intro m x h
    simp only [List.foldl_cons] at h
    rcases ih _ _ h with ⟨u, hu, hx⟩ | h1
    · exact Or.inl ⟨u, List.mem_cons_of_mem w hu, hx⟩
    · rcases keys_setKey_sub m w.unit_id x w.dependencies h1 with h2 | h2
      · exact Or.inl ⟨w, List.mem_cons_self w ws, h2.symm⟩
      · exact Or.inr h2

theorem hasCircularDependencies_complete (units : List WorkUnit)
    (h : HasCycle (buildGraph units)) : hasCircularDependencies units = true := by
  by_contra hfalse
  rw [Bool.not_eq_true] at hfalse
  unfold hasCircularDependencies at hfalse
  obtain ⟨V, _, hBV, hCV, hall⟩ := scanUnits_complete (buildGraph units)
    ((nodesD (buildGraph units)).length + 1) units [] hfalse
    (by intro b hb; cases hb) (by intro b hb; cases hb)
  obtain ⟨a, hcyc⟩ := h
  rcases Relation.TransGen.head'_iff.mp hcyc with ⟨c, hac, _⟩
  have hak : a ∈ (buildGraph units).map Prod.fst := key_of_succ hac
  rcases keys_buildGraph_sub_aux units [] a hak with ⟨u, hu, hid⟩ | hnil
  · have haV : a ∈ V := hid ▸ hall u hu
    exact hCV a haV (by simp) hcyc
  · cases hnil

/-- The source's depth-first detector decides exactly the existence of a
dependency cycle. -/
theorem hasCircularDependencies_iff (units : List WorkUnit) :
    hasCircularDependencies units = true ↔ HasCycle (buildGraph units) :=
  ⟨hasCircularDependencies_sound units, hasCircularDependencies_complete units⟩

/-! ## C1: publish_work_units is all-or-nothing with respect to cycles -/

theorem findKey_setKey_isSome {α : Type} (m : Assoc α) (k k' : String) (v : α)
    (h : (findKey m k').isSome = true) : (findKey (setKey m k v) k').isSome = true := by
  by_cases hk : k = k'
  · subst hk
    rw [findKey_setKey_self]
    rfl
  · rw [findKey_setKey_ne _ _ _ _ hk]
    exact h

theorem fold_index_preserves_isSome :
    ∀ (l : List WorkUnit) (m : Assoc WorkUnit) (k : String),
      (findKey m k).isSome = true →
      (findKey (l.foldl (fun m u => setKey m u.unit_id u) m) k).isSome = true := by
  intro l
  induction l with
  | nil => intro m k h; exact h
  | cons w ws ih =>
    intro m k h
    simp only [List.foldl_cons]
    exact ih _ _ (findKey_setKey_isSome m w.unit_id k w h)

theorem fold_index_isSome :
    ∀ (l : List WorkUnit) (m : Assoc WorkUnit) (u : WorkUnit), u ∈ l →
      (findKey (l.foldl (fun m u => setKey m u.unit_id u) m) u.unit_id).isSome = true := by
  intro l
  induction l with
  | nil => intro m u h; cases h
  | cons w ws ih =>
    intro m u h
    simp only [List.foldl_cons]
    rcases List.mem_cons.mp h with h1 | h1
    · subst h1
      apply fold_index_preserves_isSome
      rw [findKey_setKey_self]
      rfl
    · exact ih _ u h1

/-- C1: `publish_work_units` is all-or-nothing with respect to cycles.
With the session and its unit index present: if the union of the
session's existing units and the new batch contains a dependency cycle
(`HasCycle` — exactly what the source's DFS detects, by
`hasCircularDependencies_iff`), the publish fails with the
structural-violation error and the entire store, in particular the
session's work-unit list and index, is exactly as before the call; if
there is no cycle, the call succeeds, every unit of the batch is
appended to the session's list and entered into the index. -/
theorem publishWorkUnits_cycle_atomic
    (st : Store) (sid : String) (units : List WorkUnit) (now : Nat)
    (s : Session) (idx : Assoc WorkUnit)
    (hfs : findKey st.sessions sid = some s)
    (hfi : findKey st.workUnitIndex sid = some idx) :
    (HasCycle (buildGraph (s.work_units ++ units)) →
      publishWorkUnits st sid units now = (PubOutcome.cycleDetected, st)) ∧
    (¬ HasCycle (buildGraph (s.work_units ++ units)) →
      (publishWorkUnits st sid units now).1 = PubOutcome.ok ∧
      findKey (publishWorkUnits st sid units now).2.sessions sid =
        some (publishedSession s units now) ∧
      findKey (publishWorkUnits st sid units now).2.workUnitIndex sid =
        some (units.foldl (fun m u => setKey m u.unit_id u) idx) ∧
      ∀ u ∈ units,
        (findKey (units.foldl (fun m u => setKey m u.unit_id u) idx) u.unit_id).isSome
          = true) := by
  constructor
  · intro hcyc
    have hb : hasCircularDependencies (s.work_units ++ units) = true :=
      (hasCircularDependencies_iff _).mpr hcyc
    simp only [publishWorkUnits, hfs, hfi, hb]
    simp
  · intro hncyc
    have hb : hasCircularDependencies (s.work_units ++ units) = false := by
      rcases hbc : hasCircularDependencies (s.work_units ++ units) with _ | _
      · rfl
      · exact absurd ((hasCircularDependencies_iff _).mp hbc) hncyc
    have hrun : (publishWorkUnits st sid units now).1 = PubOutcome.ok ∧
        (publishWorkUnits st sid units now).2.sessions =
          setKey st.sessions sid (publishedSession s units now) ∧
        (publishWorkUnits st sid units now).2.workUnitIndex =
          setKey st.workUnitIndex sid
            (units.foldl (fun m u => setKey m u.unit_id u) idx) := by
      simp only [publishWorkUnits, hfs, hfi, hb]
      simp [publishedSession]
    refine ⟨hrun.1, ?_, ?_, fun u hu => fold_index_isSome units idx u hu⟩
    · rw [hrun.2.1, findKey_setKey_self]
    · rw [hrun.2.2, findKey_setKey_self]

/-- Witness for C1 at a concrete input: publishing the two-unit cycle
`A ↔ B` into the fresh demo session fails and leaves the store
untouched; publishing the acyclic pair `A → B` succeeds and indexes
both units. -/
theorem publishWorkUnits_cycle_atomic_witness :
    publishWorkUnits demoCreate.2 "session_0" [mkUnit "A" ["B"], mkUnit "B" ["A"]] 1 =
      (PubOutcome.cycleDetected, demoCreate.2) ∧
    (publishWorkUnits demoCreate.2 "session_0" [mkUnit "A" ["B"], mkUnit "B" []] 1).1 =
      PubOutcome.ok ∧
    (findKey ((findKey (publishWorkUnits demoCreate.2 "session_0"
      [mkUnit "A" ["B"], mkUnit "B" []] 1).2.workUnitIndex "session_0").getD [])
      "A").isSome = true := by
  have h1 := (publishWorkUnits_cycle_atomic demoCreate.2 "session_0"
    [mkUnit "A" ["B"], mkUnit "B" ["A"]] 1 _ _ rfl rfl).1
    ((hasCircularDependencies_iff _).mp (by decide))
  have h2 := (publishWorkUnits_cycle_atomic demoCreate.2 "session_0"
    [mkUnit "A" ["B"], mkUnit "B" []] 1 _ _ rfl rfl).2
    (fun hc => absurd ((hasCircularDependencies_iff _).mpr hc) (by decide))
  refine ⟨h1, h2.1, ?_⟩
  rw [h2.2.2.1]
  simp only [Option.getD_some]
  exact h2.2.2.2 (mkUnit "A" ["B"]) (by simp)
